import Mathlib

/-!
# Verification of the leasebee extraction normalization, refinement and scoring core

This file gives a shallow embedding of the three algorithmic components of the
repository and proves/refutes the frozen specification claims about them:

* `app/services/validation_service.py` — per-field-type normalization
  (`validate_date`, `validate_currency`, `validate_number`, `validate_percentage`,
  `validate_area`, `validate_boolean`, `validate_address`, `validate_text`),
  cross-field consistency checks (`check_consistency`) and the orchestration
  (`validate_and_normalize`).
* `app/services/claude_service.py` — the multi-pass refinement controller
  (`extract_lease_data_with_refinement`, `_merge_extraction_results`); the
  AI-provider call itself is external and is modelled as a parameter.
* `scripts/baseline_accuracy.py` — the accuracy comparator (`normalize_value`,
  `normalize_number`, `normalize_term_months`, `normalize_pro_rata`,
  `normalize_date`, `compare_values`).

Modelling conventions:

* Python scalars are the inductive type `PyVal` (`none`, booleans, ints, floats,
  strings).  Python floats are modelled as rational numbers; every value a
  Python float can hold is a decimal rational, which the predicate `IsDecimal`
  captures.  Exact rational arithmetic stands in for IEEE-754 arithmetic, and
  `round`/format specifiers use round-half-even on the exact value.
* `str(float)` is modelled by `floatStr`, which prints the exact decimal
  expansion with a trailing `.0` for integral values (scientific notation for
  very large/small magnitudes is outside the modelled fragment).
* `float(...)`/`Decimal(...)` string parsing is modelled by `parseFloat`
  covering the decimal literal fragment `[+-]? digits [. digits]`
  (exponents, `inf`, `nan` and underscore separators are outside the fragment).
* Fallible Python operations are modelled with `Option`; a caught exception is
  the `none` branch.  All embedded functions are total computable definitions.
* Python dictionaries are association lists in insertion order; dictionary
  truthiness is non-emptiness, and `dict.get` is `alookup`.
-/

/-! ## Character and string utilities -/

attribute [local semireducible] Rat.mul Rat.inv Rat.add Rat.sub Rat.ofScientific

def isDigitCh (c : Char) : Bool := 48 ≤ c.toNat && c.toNat ≤ 57

def isSpaceCh (c : Char) : Bool := c = ' ' || c = '\t' || c = '\n' || c = '\r'

/-- Python `str.strip()` (whitespace from both ends). -/
def pyTrimChars (cs : List Char) : List Char :=
  ((cs.dropWhile isSpaceCh).reverse.dropWhile isSpaceCh).reverse

def pyStrip (s : String) : String := String.mk (pyTrimChars s.data)

/-- Python `str.strip(ch)` for a single character argument. -/
def pyStripChar (ch : Char) (s : String) : String :=
  String.mk (((s.data.dropWhile (· = ch)).reverse.dropWhile (· = ch)).reverse)

def lowerCh (c : Char) : Char := if 65 ≤ c.toNat ∧ c.toNat ≤ 90 then Char.ofNat (c.toNat + 32) else c

/-- Python `str.lower()` (ASCII fragment). -/
def pyLower (s : String) : String := String.mk (s.data.map lowerCh)

/-- Python substring test `a in b`. -/
def strIn (a b : String) : Bool := decide (List.IsInfix a.data b.data)

/-- Remove every occurrence of the characters in `bad` (models `re.sub` of a
character class with the empty string, and `str.replace(c, '')`). -/
def stripChars (bad : List Char) (s : String) : String :=
  String.mk (s.data.filter (fun c => !(bad.contains c)))

/-- First component: longest prefix satisfying `p`; second: the rest. -/
def spanD (p : Char → Bool) : List Char → List Char × List Char
  | [] => ([], [])
  | c :: cs =>
    if p c then
      let r := spanD p cs
      (c :: r.1, r.2)
    else ([], c :: cs)

theorem spanD_all {p : Char → Bool} {xs : List Char} (h : ∀ c ∈ xs, p c = true) :
    spanD p xs = (xs, []) := by
  induction xs with
  | nil => rfl
  | cons c cs ih =>
    have hc : p c = true := h c (List.mem_cons_self c cs)
    simp only [spanD, hc, if_pos]
    rw [ih (fun x hx => h x (List.mem_cons_of_mem c hx))]

theorem spanD_all_append {p : Char → Bool} {xs ys : List Char} {y : Char}
    (h : ∀ c ∈ xs, p c = true) (hy : p y = false) :
    spanD p (xs ++ y :: ys) = (xs, y :: ys) := by
  induction xs with
  | nil => simp [spanD, hy]
  | cons c cs ih =>
    have hc : p c = true := h c (List.mem_cons_self c cs)
    simp only [List.cons_append, spanD, hc, if_pos, List.append_eq]
    rw [ih (fun x hx => h x (List.mem_cons_of_mem c hx))]

theorem dropWhile_eq_self_of_forall {p : Char → Bool} {cs : List Char}
    (h : ∀ c ∈ cs, p c = false) : cs.dropWhile p = cs := by
  cases cs with
  | nil => rfl
  | cons c r =>
    have := h c (List.mem_cons_self c r)
    simp [List.dropWhile, this]

theorem pyTrimChars_eq_self {cs : List Char} (h : ∀ c ∈ cs, isSpaceCh c = false) :
    pyTrimChars cs = cs := by
  unfold pyTrimChars
  rw [dropWhile_eq_self_of_forall h]
  rw [dropWhile_eq_self_of_forall (fun c hc => h c (List.mem_reverse.mp hc))]
  exact List.reverse_reverse cs

/-! ## Decimal digits -/

def dVal (c : Char) : ℕ := c.toNat - 48

def dCh (n : ℕ) : Char := Char.ofNat (48 + n)

theorem dVal_dCh {n : ℕ} (h : n < 10) : dVal (dCh n) = n := by
  interval_cases n <;> decide

theorem isDigitCh_dCh {n : ℕ} (h : n < 10) : isDigitCh (dCh n) = true := by
  interval_cases n <;> decide

theorem isSpaceCh_dCh {n : ℕ} (h : n < 10) : isSpaceCh (dCh n) = false := by
  interval_cases n <;> decide

theorem dCh_ne_dot {n : ℕ} (h : n < 10) : dCh n ≠ '.' := by
  interval_cases n <;> decide

theorem dCh_ne_dash {n : ℕ} (h : n < 10) : dCh n ≠ '-' := by
  interval_cases n <;> decide

theorem dCh_ne_plus {n : ℕ} (h : n < 10) : dCh n ≠ '+' := by
  interval_cases n <;> decide

/-- Big-endian decimal value of a digit string. -/
def digitsToNat (cs : List Char) : ℕ := cs.foldl (fun a c => 10 * a + dVal c) 0

def natToCharsGo : ℕ → ℕ → List Char
  | 0, n => [dCh n]
  | fuel + 1, n => if n < 10 then [dCh n] else natToCharsGo fuel (n / 10) ++ [dCh (n % 10)]

/-- Big-endian digit characters of `n` (`"0"` for zero), as printed by Python. -/
def natChars (n : ℕ) : List Char := natToCharsGo n n

theorem natToCharsGo_eq : ∀ (fuel n : ℕ), n ≤ fuel →
    natToCharsGo fuel n = if n = 0 then ['0'] else ((Nat.digits 10 n).reverse.map dCh) := by
  intro fuel
  induction fuel with
  | zero =>
    intro n h
    rcases Nat.le_zero.mp h with rfl
    rfl
  | succ fuel ih =>
    intro n h
    unfold natToCharsGo
    by_cases h10 : n < 10
    · rw [if_pos h10]
      rcases Nat.eq_zero_or_pos n with rfl | hn
      · simp only [if_pos rfl]
        decide
      · rw [if_neg (by omega : ¬ n = 0)]
        rw [Nat.digits_def' (by norm_num : (1:ℕ) < 10) hn]
        have hd : n / 10 = 0 := Nat.div_eq_of_lt h10
        rw [hd]
        simp [Nat.mod_eq_of_lt h10]
    · rw [if_neg h10]
      have hn : 0 < n := by omega
      rw [if_neg (by omega : ¬ n = 0)]
      have hdivle : n / 10 ≤ fuel := by
        have := Nat.div_lt_self hn (by norm_num : (1:ℕ) < 10)
        omega
      rw [ih (n / 10) hdivle]
      have hdivpos : 0 < n / 10 := Nat.div_pos (by omega) (by norm_num)
      rw [if_neg (by omega : ¬ n / 10 = 0)]
      rw [Nat.digits_def' (by norm_num : (1:ℕ) < 10) hn]
      simp

theorem natChars_eq (n : ℕ) :
    natChars n = if n = 0 then ['0'] else ((Nat.digits 10 n).reverse.map dCh) :=
  natToCharsGo_eq n n (le_refl n)

/-- `natChars` zero-padded on the left to at least `k` characters. -/
def natCharsPad (k n : ℕ) : List Char :=
  List.replicate (k - (natChars n).length) '0' ++ natChars n

theorem natChars_ne_nil (n : ℕ) : natChars n ≠ [] := by
  rw [natChars_eq]
  split
  · simp
  · rename_i h
    have hd : Nat.digits 10 n ≠ [] := Nat.digits_ne_nil_iff_ne_zero.mpr h
    simp [hd]

theorem mem_natChars_isDigit {n : ℕ} {c : Char} (h : c ∈ natChars n) :
    isDigitCh c = true := by
  rw [natChars_eq] at h
  split at h
  · rcases List.mem_singleton.mp h with rfl
    decide
  · rcases List.mem_map.mp h with ⟨d, hd, rfl⟩
    exact isDigitCh_dCh (Nat.digits_lt_base (by norm_num) (List.mem_reverse.mp hd))

theorem mem_natCharsPad_isDigit {k n : ℕ} {c : Char} (h : c ∈ natCharsPad k n) :
    isDigitCh c = true := by
  unfold natCharsPad at h
  rcases List.mem_append.mp h with h | h
  · rcases List.eq_of_mem_replicate h with rfl
    decide
  · exact mem_natChars_isDigit h

theorem foldl_digits_reverse (L : List ℕ) (a : ℕ) :
    (L.reverse).foldl (fun x d => 10 * x + d) a = a * 10 ^ L.length + Nat.ofDigits 10 L := by
  induction L generalizing a with
  | nil => simp
  | cons d T ih =>
    simp only [List.reverse_cons, List.foldl_append, List.foldl_cons, List.foldl_nil,
      Nat.ofDigits_cons, List.length_cons]
    rw [ih a]
    ring

theorem digitsToNat_natChars (n : ℕ) : digitsToNat (natChars n) = n := by
  rw [natChars_eq]
  unfold digitsToNat
  split
  · rename_i h
    subst h
    decide
  · rename_i h
    rw [List.foldl_map]
    have hext : ((Nat.digits 10 n).reverse).foldl (fun x d => 10 * x + dVal (dCh d)) 0 =
        ((Nat.digits 10 n).reverse).foldl (fun x d => 10 * x + d) 0 := by
      apply List.foldl_ext
      intro a x hx
      rw [dVal_dCh (Nat.digits_lt_base (by norm_num) (List.mem_reverse.mp hx))]
    rw [hext, foldl_digits_reverse, Nat.ofDigits_digits]
    simp

theorem digitsToNat_natCharsPad (k n : ℕ) : digitsToNat (natCharsPad k n) = n := by
  unfold digitsToNat natCharsPad
  rw [List.foldl_append]
  have hz : ∀ (m : ℕ), (List.replicate m '0').foldl (fun a c => 10 * a + dVal c) 0 = 0 := by
    intro m
    induction m with
    | zero => rfl
    | succ m ih => simpa [List.replicate_succ] using ih
  rw [hz]
  exact digitsToNat_natChars n

theorem natChars_length_le {k n : ℕ} (hn : n < 10 ^ k) (hk : 1 ≤ k) :
    (natChars n).length ≤ k := by
  rw [natChars_eq]
  split
  · simpa using hk
  · rename_i h
    simp only [List.length_map, List.length_reverse]
    rw [Nat.digits_len 10 n (by norm_num) h]
    have := (Nat.lt_pow_iff_log_lt (by norm_num : (1:ℕ) < 10) h).mp hn
    omega

theorem natCharsPad_length {k n : ℕ} (hn : n < 10 ^ k) (hk : 1 ≤ k) :
    (natCharsPad k n).length = k := by
  unfold natCharsPad
  have hle := natChars_length_le hn hk
  simp [List.length_replicate, Nat.sub_add_cancel hle]

/-! ## Python float printing and parsing -/

/-- `q` is a decimal rational (every Python float value is one). -/
def IsDecimal (q : ℚ) : Prop := ∃ k : ℕ, (q.den : ℕ) ∣ 10 ^ k

theorem dvd_ten_pow_self {n k : ℕ} (h : n ∣ 10 ^ k) : n ∣ 10 ^ n := by
  induction n using Nat.strong_induction_on with
  | _ n ih =>
    rcases Nat.eq_zero_or_pos n with rfl | hn
    · exact absurd (Nat.eq_zero_of_zero_dvd h) (by positivity)
    · rcases eq_or_lt_of_le hn with h1 | h2
      · rw [← h1]
        exact one_dvd _
      · obtain ⟨p, hp, hpn⟩ := Nat.exists_prime_and_dvd (by omega : n ≠ 1)
        have hp10 : p ∣ 10 := hp.dvd_of_dvd_pow (hpn.trans h)
        have hp2 : 2 ≤ p := hp.two_le
        set m := n / p with hm
        have hmp : m * p = n := Nat.div_mul_cancel hpn
        have hm1 : 1 ≤ m := by
          rcases Nat.eq_zero_or_pos m with h0 | h1
          · rw [h0, zero_mul] at hmp
            omega
          · exact h1
        have hmlt : m < n := by
          calc m < m * 2 := by omega
          _ ≤ m * p := Nat.mul_le_mul_left m hp2
          _ = n := hmp
        have hmdvd : m ∣ 10 ^ k := dvd_trans ⟨p, hmp.symm⟩ h
        have ihm := ih m hmlt hmdvd
        have : n ∣ 10 ^ (m + 1) := by
          rw [← hmp, pow_succ]
          exact mul_dvd_mul ihm hp10
        exact this.trans (pow_dvd_pow 10 (by
          calc m + 1 ≤ m + m := by omega
          _ = m * 2 := by ring
          _ ≤ m * p := Nat.mul_le_mul_left m hp2
          _ = n := hmp))

def decExpAux (d : ℕ) : Option ℕ := (List.range (d + 1)).find? (fun k => decide (d ∣ 10 ^ k))

/-- Smallest exponent `k` with `q.den ∣ 10 ^ k` (0 if none exists below the bound). -/
def decExp (q : ℚ) : ℕ := (decExpAux q.den).getD 0

theorem decExp_dvd {q : ℚ} (h : IsDecimal q) : (q.den : ℕ) ∣ 10 ^ decExp q := by
  obtain ⟨k, hk⟩ := h
  have hself : q.den ∣ 10 ^ q.den := dvd_ten_pow_self hk
  have hmem : q.den ∈ List.range (q.den + 1) := List.mem_range.mpr (Nat.lt_succ_self _)
  have hsome : (decExpAux q.den).isSome := by
    rw [decExpAux, List.find?_isSome]
    exact ⟨q.den, hmem, by simpa using hself⟩
  obtain ⟨k0, hk0⟩ := Option.isSome_iff_exists.mp hsome
  have := List.find?_some hk0
  rw [decExp, hk0]
  simpa using this

/-- Python `str(x)` for a float `x` (exact decimal expansion, `.0` when integral;
scientific notation is outside the modelled fragment). -/
def floatStr (q : ℚ) : String :=
  let k := decExp q
  let m : ℤ := q.num * ((10 : ℤ) ^ k / (q.den : ℤ))
  let n : ℕ := m.natAbs
  String.mk ((if q.num < 0 then ['-'] else []) ++
    natChars (n / 10 ^ k) ++ '.' :: natCharsPad k (n % 10 ^ k))

def readSign : List Char → Bool × List Char
  | [] => (false, [])
  | c :: r => if c = '-' then (true, r) else if c = '+' then (false, r) else (false, c :: r)

def floatVal (neg : Bool) (I F : List Char) : ℚ :=
  (((if neg then -1 else 1) * ((digitsToNat I : ℤ) * 10 ^ F.length + (digitsToNat F : ℤ))) : ℤ) /
    ((10 : ℚ) ^ F.length)

/-- Dispatch after the integer digit group: an optional fractional part, then
the string must be exhausted. -/
def parseFloatTail (neg : Bool) (I : List Char) : List Char → Option ℚ
  | [] => if I = [] then none else some (floatVal neg I [])
  | c :: r2 =>
    if c = '.' then
      if I = [] ∧ (spanD isDigitCh r2).1 = [] then none
      else if (spanD isDigitCh r2).2 ≠ [] then none
      else some (floatVal neg I (spanD isDigitCh r2).1)
    else none

/-- Python `float(s)` on a string: the decimal literal fragment
`ws [+-]? (digits [. digits?] | . digits) ws` (exponents/`inf`/`nan` are outside
the modelled fragment and are treated as parse failures). -/
def parseFloatChars (cs : List Char) : Option ℚ :=
  parseFloatTail (readSign (pyTrimChars cs)).1
    (spanD isDigitCh (readSign (pyTrimChars cs)).2).1
    (spanD isDigitCh (readSign (pyTrimChars cs)).2).2

def parseFloat (s : String) : Option ℚ := parseFloatChars s.data

theorem isDigitCh_not_space {c : Char} (h : isDigitCh c = true) : isSpaceCh c = false := by
  by_contra h2
  have hs : isSpaceCh c = true := by
    cases hb : isSpaceCh c
    · exact absurd hb h2
    · rfl
  unfold isSpaceCh at hs
  unfold isDigitCh at h
  rcases Bool.or_eq_true_iff.mp hs with h3 | h4
  · rcases Bool.or_eq_true_iff.mp h3 with h5 | h6
    · rcases Bool.or_eq_true_iff.mp h5 with h7 | h8
      · rw [decide_eq_true_eq.mp h7] at h
        exact absurd h (by decide)
      · rw [decide_eq_true_eq.mp h8] at h
        exact absurd h (by decide)
    · rw [decide_eq_true_eq.mp h6] at h
      exact absurd h (by decide)
  · rw [decide_eq_true_eq.mp h4] at h
    exact absurd h (by decide)

theorem isDigitCh_ne_dash {c : Char} (h : isDigitCh c = true) : c ≠ '-' := by
  intro h2
  rw [h2] at h
  exact absurd h (by decide)

theorem isDigitCh_ne_plus {c : Char} (h : isDigitCh c = true) : c ≠ '+' := by
  intro h2
  rw [h2] at h
  exact absurd h (by decide)

theorem data_mk (l : List Char) : (String.mk l).data = l := rfl

theorem floatVal_eq (neg : Bool) (I F : List Char) :
    floatVal neg I F = (if neg then (-1 : ℚ) else 1) *
      ((digitsToNat I : ℚ) * 10 ^ F.length + (digitsToNat F : ℚ)) / 10 ^ F.length := by
  unfold floatVal
  split <;> push_cast <;> ring

theorem floatVal_padded {q : ℚ} (neg : Bool) (k N : ℕ)
    (hq : (if neg then (-1 : ℚ) else 1) * (N : ℚ) = q * 10 ^ k) :
    floatVal neg (natChars (N / 10 ^ k)) (natCharsPad k (N % 10 ^ k)) = q := by
  rw [floatVal_eq, digitsToNat_natChars, digitsToNat_natCharsPad]
  rcases Nat.eq_zero_or_pos k with rfl | hk
  · have hN0 : N % 10 ^ 0 = 0 := by rw [pow_zero]; exact Nat.mod_one N
    have hN1 : N / 10 ^ 0 = N := by rw [pow_zero]; exact Nat.div_one N
    have hL : (natCharsPad 0 (N % 10 ^ 0)).length = 1 := by rw [hN0]; rfl
    rw [hL, hN0, hN1]
    rw [pow_zero, mul_one] at hq
    rw [div_eq_iff (by norm_num : ((10 : ℚ) ^ 1) ≠ 0)]
    push_cast
    calc (if neg then (-1 : ℚ) else 1) * ((N : ℚ) * 10 ^ 1 + 0)
        = ((if neg then (-1 : ℚ) else 1) * (N : ℚ)) * 10 ^ 1 := by ring
      _ = q * 10 ^ 1 := by rw [hq]
  · have hfp : N % 10 ^ k < 10 ^ k := Nat.mod_lt _ (by positivity)
    have hL : (natCharsPad k (N % 10 ^ k)).length = k := natCharsPad_length hfp hk
    rw [hL]
    have hsum : 10 ^ k * (N / 10 ^ k) + N % 10 ^ k = N := Nat.div_add_mod N (10 ^ k)
    have hsumQ : ((N / 10 ^ k : ℕ) : ℚ) * 10 ^ k + ((N % 10 ^ k : ℕ) : ℚ) = (N : ℚ) := by
      have := congrArg (fun z : ℕ => (z : ℚ)) hsum
      push_cast at this
      rw [← this]
      ring
    rw [div_eq_iff (by positivity : ((10 : ℚ) ^ k) ≠ 0)]
    rw [hsumQ]
    calc (if neg then (-1 : ℚ) else 1) * (N : ℚ)
        = q * 10 ^ k := hq
      _ = q * 10 ^ k := rfl

theorem parseFloatChars_eval_neg (I F : List Char)
    (hI : ∀ c ∈ I, isDigitCh c = true) (hF : ∀ c ∈ F, isDigitCh c = true) (hIne : I ≠ []) :
    parseFloatChars ('-' :: (I ++ '.' :: F)) = some (floatVal true I F) := by
  have hnospace : ∀ c ∈ ('-' :: (I ++ '.' :: F)), isSpaceCh c = false := by
    intro c hc
    rcases List.mem_cons.mp hc with rfl | hc2
    · decide
    · rcases List.mem_append.mp hc2 with hc3 | hc4
      · exact isDigitCh_not_space (hI c hc3)
      · rcases List.mem_cons.mp hc4 with rfl | hc5
        · decide
        · exact isDigitCh_not_space (hF c hc5)
  have hsign : readSign ('-' :: (I ++ '.' :: F)) = (true, I ++ '.' :: F) := by
    simp only [readSign]
    simp
  unfold parseFloatChars
  rw [pyTrimChars_eq_self hnospace, hsign]
  simp only [spanD_all_append hI (by decide : isDigitCh '.' = false)]
  simp only [parseFloatTail, if_pos rfl, spanD_all hF]
  simp [hIne]

theorem parseFloatChars_eval_pos (I F : List Char)
    (hI : ∀ c ∈ I, isDigitCh c = true) (hF : ∀ c ∈ F, isDigitCh c = true) (hIne : I ≠ []) :
    parseFloatChars (I ++ '.' :: F) = some (floatVal false I F) := by
  have hnospace : ∀ c ∈ (I ++ '.' :: F), isSpaceCh c = false := by
    intro c hc
    rcases List.mem_append.mp hc with hc3 | hc4
    · exact isDigitCh_not_space (hI c hc3)
    · rcases List.mem_cons.mp hc4 with rfl | hc5
      · decide
      · exact isDigitCh_not_space (hF c hc5)
  obtain ⟨c0, cs0, hc0⟩ : ∃ c0 cs0, I = c0 :: cs0 := by
    cases I with
    | nil => exact absurd rfl hIne
    | cons a l => exact ⟨a, l, rfl⟩
  have hc0dig : isDigitCh c0 = true := hI c0 (by rw [hc0]; exact List.mem_cons_self c0 cs0)
  have hsign : readSign (I ++ '.' :: F) = (false, I ++ '.' :: F) := by
    rw [hc0]
    show readSign (c0 :: (cs0 ++ '.' :: F)) = (false, c0 :: (cs0 ++ '.' :: F))
    simp only [readSign]
    rw [if_neg (isDigitCh_ne_dash hc0dig), if_neg (isDigitCh_ne_plus hc0dig)]
  unfold parseFloatChars
  rw [pyTrimChars_eq_self hnospace, hsign]
  simp only [spanD_all_append hI (by decide : isDigitCh '.' = false)]
  simp only [parseFloatTail, if_pos rfl, spanD_all hF]
  simp [hIne]

theorem parseFloat_floatStr {q : ℚ} (h : IsDecimal q) : parseFloat (floatStr q) = some q := by
  have hdN : (q.den : ℕ) ∣ 10 ^ decExp q := decExp_dvd h
  have hd : (q.den : ℤ) ∣ (10 : ℤ) ^ decExp q := by
    have := Int.natCast_dvd_natCast.mpr hdN
    push_cast at this
    exact this
  set k := decExp q with hkdef
  set t : ℤ := (10 : ℤ) ^ k / (q.den : ℤ) with htdef
  set m : ℤ := q.num * t with hmdef
  have htden : t * (q.den : ℤ) = 10 ^ k := Int.ediv_mul_cancel hd
  have hdenpos : (0 : ℤ) < (q.den : ℤ) := by exact_mod_cast q.pos
  have ht0 : 0 < t := by
    by_contra hle
    push_neg at hle
    have h1 : t * (q.den : ℤ) ≤ 0 := mul_nonpos_iff.mpr (Or.inr ⟨hle, le_of_lt hdenpos⟩)
    rw [htden] at h1
    have h2 : (0 : ℤ) < 10 ^ k := by positivity
    omega
  have hdenne : ((q.den : ℕ) : ℚ) ≠ 0 := Nat.cast_ne_zero.mpr q.den_ne_zero
  have hnd : q * ((q.den : ℕ) : ℚ) = ((q.num : ℤ) : ℚ) :=
    (eq_div_iff hdenne).mp (Rat.num_div_den q).symm
  have hmq : (m : ℚ) = q * 10 ^ k := by
    have hmden : m * (q.den : ℤ) = q.num * 10 ^ k := by
      rw [hmdef, mul_assoc, htden]
    have hc : ((m : ℤ) : ℚ) * ((q.den : ℕ) : ℚ) = ((q.num : ℤ) : ℚ) * 10 ^ k := by
      have := congrArg (fun z : ℤ => (z : ℚ)) hmden
      push_cast at this ⊢
      exact this
    apply mul_right_cancel₀ hdenne
    rw [hc]
    calc ((q.num : ℤ) : ℚ) * 10 ^ k
        = (q * ((q.den : ℕ) : ℚ)) * 10 ^ k := by rw [hnd]
      _ = q * 10 ^ k * ((q.den : ℕ) : ℚ) := by ring
  set N : ℕ := m.natAbs with hNdef
  have hdigI : ∀ c ∈ natChars (N / 10 ^ k), isDigitCh c = true := fun c hc => mem_natChars_isDigit hc
  have hdigF : ∀ c ∈ natCharsPad k (N % 10 ^ k), isDigitCh c = true :=
    fun c hc => mem_natCharsPad_isDigit hc
  have hIne : natChars (N / 10 ^ k) ≠ [] := natChars_ne_nil _
  unfold parseFloat floatStr
  simp only [data_mk, ← hkdef, ← htdef, ← hmdef, ← hNdef]
  rcases lt_or_ge q.num 0 with hneg | hpos
  · have hm0 : m < 0 := mul_neg_of_neg_of_pos hneg ht0
    have hNm : ((N : ℕ) : ℤ) = -m := by
      rw [hNdef, ← Int.natAbs_neg]
      exact Int.natAbs_of_nonneg (by omega)
    have hqv : (if true then (-1 : ℚ) else 1) * (N : ℚ) = q * 10 ^ k := by
      rw [if_pos rfl, ← hmq]
      have : ((N : ℕ) : ℚ) = -(m : ℚ) := by
        have := congrArg (fun z : ℤ => (z : ℚ)) hNm
        push_cast at this
        exact this
      rw [this]
      ring
    rw [if_pos hneg]
    simp only [List.singleton_append, List.cons_append, List.nil_append, List.append_assoc]
    have heval := parseFloatChars_eval_neg _ _ hdigI hdigF hIne
    simp only [List.cons_append, List.nil_append, List.append_assoc] at heval
    rw [heval]
    rw [floatVal_padded true k N hqv]
  · have hm0 : 0 ≤ m := mul_nonneg hpos (le_of_lt ht0)
    have hNm : ((N : ℕ) : ℤ) = m := Int.natAbs_of_nonneg hm0
    have hqv : (if false then (-1 : ℚ) else 1) * (N : ℚ) = q * 10 ^ k := by
      rw [if_neg (by simp), ← hmq]
      have : ((N : ℕ) : ℚ) = (m : ℚ) := by
        have := congrArg (fun z : ℤ => (z : ℚ)) hNm
        push_cast at this
        exact this
      rw [this]
      ring
    rw [if_neg (not_lt.mpr hpos)]
    simp only [List.nil_append, List.append_assoc]
    have heval := parseFloatChars_eval_pos _ _ hdigI hdigF hIne
    simp only [List.cons_append, List.nil_append, List.append_assoc] at heval
    rw [heval]
    rw [floatVal_padded false k N hqv]

theorem parseFloatTail_some {neg : Bool} {I rest : List Char} {q : ℚ}
    (h : parseFloatTail neg I rest = some q) : ∃ F, floatVal neg I F = q := by
  cases rest with
  | nil =>
    simp only [parseFloatTail] at h
    split at h
    · exact absurd h (by simp)
    · exact ⟨[], Option.some_injective _ h⟩
  | cons c r2 =>
    simp only [parseFloatTail] at h
    split at h
    · split at h
      · exact absurd h (by simp)
      · split at h
        · exact absurd h (by simp)
        · exact ⟨_, Option.some_injective _ h⟩
    · exact absurd h (by simp)

theorem floatVal_isDecimal (neg : Bool) (I F : List Char) : IsDecimal (floatVal neg I F) := by
  refine ⟨F.length, ?_⟩
  unfold floatVal
  have hcast : ((10 : ℚ)) ^ F.length = (((10 : ℤ) ^ F.length : ℤ) : ℚ) := by
    push_cast
    ring
  rw [hcast, ← Rat.divInt_eq_div]
  have hdvd := Rat.den_dvd ((if neg then (-1 : ℤ) else 1) *
    ((digitsToNat I : ℤ) * 10 ^ F.length + (digitsToNat F : ℤ))) ((10 : ℤ) ^ F.length)
  have h10 : ((10 : ℤ) ^ F.length) = ((10 ^ F.length : ℕ) : ℤ) := by
    push_cast
    ring
  rw [h10] at hdvd
  exact_mod_cast hdvd

theorem parseFloatChars_isDecimal {cs : List Char} {q : ℚ} (h : parseFloatChars cs = some q) :
    IsDecimal q := by
  unfold parseFloatChars at h
  obtain ⟨F, hF⟩ := parseFloatTail_some h
  rw [← hF]
  exact floatVal_isDecimal _ _ _

theorem parseFloat_isDecimal {s : String} {q : ℚ} (h : parseFloat s = some q) : IsDecimal q :=
  parseFloatChars_isDecimal h

/-! ## Rounding (Python round-half-even) and numeric formatting -/

theorem ratFloor_eq_floor (x : ℚ) : x.floor = ⌊x⌋ := by
  rw [Rat.floor_def', Rat.floor_def]

/-- Round half-to-even to an integer (Python `round` banker's rounding on the
exact value). -/
def rheInt (x : ℚ) : ℤ :=
  let f := x.floor
  let r := x - (f : ℚ)
  if r < 1/2 then f else if 1/2 < r then f + 1 else if f % 2 = 0 then f else f + 1

/-- Python `round(x, k)` on the exact value. -/
def roundQ (k : ℕ) (q : ℚ) : ℚ := (rheInt (q * 10 ^ k) : ℚ) / 10 ^ k

theorem rheInt_intCast (n : ℤ) : rheInt ((n : ℤ) : ℚ) = n := by
  unfold rheInt
  rw [ratFloor_eq_floor, Int.floor_intCast]
  simp

theorem roundQ_roundQ (k : ℕ) (q : ℚ) : roundQ k (roundQ k q) = roundQ k q := by
  unfold roundQ
  have h10 : ((10 : ℚ) ^ k) ≠ 0 := by positivity
  rw [div_mul_cancel₀ _ h10, rheInt_intCast]

theorem roundQ_isDecimal (k : ℕ) (q : ℚ) : IsDecimal (roundQ k q) := by
  refine ⟨k, ?_⟩
  unfold roundQ
  have hcast : ((10 : ℚ)) ^ k = (((10 : ℤ) ^ k : ℤ) : ℚ) := by
    push_cast
    ring
  rw [hcast, ← Rat.divInt_eq_div]
  have hdvd := Rat.den_dvd (rheInt (q * 10 ^ k)) ((10 : ℤ) ^ k)
  have h10 : ((10 : ℤ) ^ k) = ((10 ^ k : ℕ) : ℤ) := by
    push_cast
    ring
  rw [h10] at hdvd
  exact_mod_cast hdvd

/-- Insert a thousands separator every three characters, counted from the right
(input and output reversed). -/
def group3Rev : List Char → List Char
  | a :: b :: c :: d :: rest => a :: b :: c :: ',' :: group3Rev (d :: rest)
  | l => l

def commaChars (cs : List Char) : List Char := (group3Rev cs.reverse).reverse

/-- Python format specifier `:.{prec}f` / `:,.{prec}f` on the exact value. -/
def fixedFmt (prec : ℕ) (comma : Bool) (q : ℚ) : String :=
  let n := rheInt (q * 10 ^ prec)
  let na := n.natAbs
  let ip := na / 10 ^ prec
  let fp := na % 10 ^ prec
  let ipChars := if comma then commaChars (natChars ip) else natChars ip
  String.mk ((if n < 0 then ['-'] else []) ++ ipChars ++
    (if prec = 0 then [] else '.' :: natCharsPad prec fp))

/-- Python format specifier `:.1%`. -/
def pctFmt (q : ℚ) : String := fixedFmt 1 false (q * 100) ++ "%"

/-! ## Python scalar values -/

/-- A Python scalar as seen by the services: `None`, `bool`, `int`, `float` or
`str`.  Floats are exact rationals (see the header note). -/
inductive PyVal where
  | none
  | bool (b : Bool)
  | int (n : ℤ)
  | float (q : ℚ)
  | str (s : String)
deriving DecidableEq

def intChars (n : ℤ) : List Char := (if n < 0 then ['-'] else []) ++ natChars n.natAbs

def intStr (n : ℤ) : String := String.mk (intChars n)

/-- Python `str(x)`. -/
def pyStr : PyVal → String
  | .none => "None"
  | .bool true => "True"
  | .bool false => "False"
  | .int n => intStr n
  | .float q => floatStr q
  | .str s => s

/-- Python `float(x)`; `TypeError`/`ValueError` is `Option.none`. -/
def pyFloat : PyVal → Option ℚ
  | .none => Option.none
  | .bool b => some (if b then 1 else 0)
  | .int n => some ((n : ℤ) : ℚ)
  | .float q => some q
  | .str s => parseFloat s

/-- Python truthiness of a scalar. -/
def pyTruthy : PyVal → Bool
  | .none => false
  | .bool b => b
  | .int n => decide (n ≠ 0)
  | .float q => decide (q ≠ 0)
  | .str s => decide (s ≠ "")

def pyNumVal : PyVal → Option ℚ
  | .bool b => some (if b then 1 else 0)
  | .int n => some ((n : ℤ) : ℚ)
  | .float q => some q
  | _ => Option.none

/-- Python `==` on scalars: numbers (including `bool`) compare by value, strings
by content, `None` only to itself; mixed types are unequal. -/
def pyEq (a b : PyVal) : Bool :=
  match pyNumVal a, pyNumVal b with
  | some x, some y => decide (x = y)
  | _, _ =>
    match a, b with
    | .str s, .str t => decide (s = t)
    | .none, .none => true
    | _, _ => false

/-! ## Dates: the `datetime` fragment used by the services -/

structure PyDate where
  year : ℕ
  month : ℕ
  day : ℕ
deriving DecidableEq

def isLeap (y : ℕ) : Bool := (y % 4 = 0 && decide (y % 100 ≠ 0)) || y % 400 = 0

def daysInMonth (y m : ℕ) : ℕ :=
  if m = 2 then (if isLeap y then 29 else 28)
  else if m = 4 ∨ m = 6 ∨ m = 9 ∨ m = 11 then 30
  else 31

def ValidDate (d : PyDate) : Prop :=
  1 ≤ d.year ∧ d.year ≤ 9999 ∧ 1 ≤ d.month ∧ d.month ≤ 12 ∧ 1 ≤ d.day ∧
    d.day ≤ daysInMonth d.year d.month

instance (d : PyDate) : Decidable (ValidDate d) := by
  unfold ValidDate
  infer_instance

/-- `datetime(y, m, d)` — raises (modelled `none`) outside `MINYEAR..MAXYEAR`
or for an invalid month/day combination. -/
def mkDate (y m d : ℕ) : Option PyDate :=
  if 1 ≤ y ∧ y ≤ 9999 ∧ 1 ≤ m ∧ m ≤ 12 ∧ 1 ≤ d ∧ d ≤ daysInMonth y m
  then some ⟨y, m, d⟩ else Option.none

theorem mkDate_valid {y m d : ℕ} {dt : PyDate} (h : mkDate y m d = some dt) : ValidDate dt := by
  unfold mkDate at h
  split at h
  · rcases Option.some_injective _ h with rfl
    rename_i hcond
    exact hcond
  · exact absurd h (by simp)

/-- `datetime.strftime('%Y-%m-%d')`. -/
def formatIso (d : PyDate) : String :=
  String.mk (natCharsPad 4 d.year ++ '-' :: (natCharsPad 2 d.month ++ '-' :: natCharsPad 2 d.day))

/-- Read exactly `n` digit characters. -/
def readDigits (n : ℕ) (cs : List Char) : Option (ℕ × List Char) :=
  if (cs.take n).length = n ∧ (cs.take n).all isDigitCh
  then some (digitsToNat (cs.take n), cs.drop n) else Option.none

def readLit (c : Char) : List Char → Option (List Char)
  | [] => Option.none
  | x :: r => if x = c then some r else Option.none

/-- Case-insensitive literal (the `strptime` regex is compiled `IGNORECASE`). -/
def readLitCI (c : Char) : List Char → Option (List Char)
  | [] => Option.none
  | x :: r => if lowerCh x = lowerCh c then some r else Option.none

/-- The regex `^\d{4}-\d{2}-\d{2}$` from `validate_date` / `normalize_date`,
returning the matched numeric groups. -/
def parseIsoStrict (cs : List Char) : Option (ℕ × ℕ × ℕ) :=
  (readDigits 4 cs).bind fun p1 =>
  (readLit '-' p1.2).bind fun r2 =>
  (readDigits 2 r2).bind fun p2 =>
  (readLit '-' p2.2).bind fun r4 =>
  (readDigits 2 r4).bind fun p3 =>
  if p3.2 = [] then some (p1.1, p2.1, p3.1) else Option.none

theorem readDigits_append {n : ℕ} {ds rest : List Char} (hlen : ds.length = n)
    (hdig : ∀ c ∈ ds, isDigitCh c = true) :
    readDigits n (ds ++ rest) = some (digitsToNat ds, rest) := by
  unfold readDigits
  have htake : (ds ++ rest).take n = ds := by
    rw [← hlen]
    exact List.take_left ds rest
  have hdrop : (ds ++ rest).drop n = rest := by
    rw [← hlen]
    exact List.drop_left ds rest
  rw [htake, hdrop, if_pos ⟨hlen, List.all_eq_true.mpr hdig⟩]

theorem parseIsoStrict_formatIso {dt : PyDate} (h : ValidDate dt) :
    parseIsoStrict (formatIso dt).data = some (dt.year, dt.month, dt.day) := by
  obtain ⟨h1, h2, h3, h4, h5, h6⟩ := h
  unfold formatIso parseIsoStrict
  rw [data_mk]
  have hy : dt.year < 10 ^ 4 := by omega
  have hm : dt.month < 10 ^ 2 := by omega
  have hd : dt.day < 10 ^ 2 := by
    have : daysInMonth dt.year dt.month ≤ 31 := by
      unfold daysInMonth
      split
      · split <;> omega
      · split <;> omega
    omega
  rw [readDigits_append (natCharsPad_length hy (by norm_num))
    (fun c hc => mem_natCharsPad_isDigit hc)]
  simp only [Option.bind_eq_bind, Option.some_bind, readLit, if_true]
  rw [readDigits_append (natCharsPad_length hm (by norm_num))
    (fun c hc => mem_natCharsPad_isDigit hc)]
  simp only [Option.some_bind, readLit, if_true]
  have hnil : natCharsPad 2 dt.day ++ ([] : List Char) = natCharsPad 2 dt.day := by simp
  rw [← hnil, readDigits_append (natCharsPad_length hd (by norm_num))
    (fun c hc => mem_natCharsPad_isDigit hc)]
  simp only [Option.some_bind, if_true]
  rw [digitsToNat_natCharsPad, digitsToNat_natCharsPad, digitsToNat_natCharsPad]

/-! ## `strptime` token matchers

Each token yields its possible matches in the order the compiled regex tries
its alternatives; a whole format is matched by depth-first search over those
candidates (regex backtracking), and the "unconverted data remains" check is
applied to the first successful regex match only, as in `_strptime`. -/

def firstSome {α : Type} : List (Option α) → Option α
  | [] => Option.none
  | some a :: _ => some a
  | Option.none :: rest => firstSome rest

def tryCands {α β : Type} (cands : List (α × List Char)) (k : α → List Char → Option β) :
    Option β :=
  firstSome (cands.map (fun p => k p.1 p.2))

/-- `%m`: regex `1[0-2]|0[1-9]|[1-9]`. -/
def candM : List Char → List (ℕ × List Char)
  | [] => []
  | [a] => if isDigitCh a ∧ 1 ≤ dVal a then [(dVal a, [])] else []
  | a :: b :: r =>
    (if isDigitCh a ∧ isDigitCh b ∧
        ((dVal a = 1 ∧ dVal b ≤ 2) ∨ (dVal a = 0 ∧ 1 ≤ dVal b))
      then [(10 * dVal a + dVal b, r)] else []) ++
    (if isDigitCh a ∧ 1 ≤ dVal a then [(dVal a, b :: r)] else [])

/-- `%d`: regex `3[01]|[12]\d|0[1-9]|[1-9]`. -/
def candD : List Char → List (ℕ × List Char)
  | [] => []
  | [a] => if isDigitCh a ∧ 1 ≤ dVal a then [(dVal a, [])] else []
  | a :: b :: r =>
    (if isDigitCh a ∧ isDigitCh b ∧
        ((dVal a = 3 ∧ dVal b ≤ 1) ∨ (1 ≤ dVal a ∧ dVal a ≤ 2) ∨ (dVal a = 0 ∧ 1 ≤ dVal b))
      then [(10 * dVal a + dVal b, r)] else []) ++
    (if isDigitCh a ∧ 1 ≤ dVal a then [(dVal a, b :: r)] else [])

/-- `%H`: regex `2[0-3]|[0-1]\d|\d`. -/
def candH : List Char → List (ℕ × List Char)
  | [] => []
  | [a] => if isDigitCh a then [(dVal a, [])] else []
  | a :: b :: r =>
    (if isDigitCh a ∧ isDigitCh b ∧ ((dVal a = 2 ∧ dVal b ≤ 3) ∨ dVal a ≤ 1)
      then [(10 * dVal a + dVal b, r)] else []) ++
    (if isDigitCh a then [(dVal a, b :: r)] else [])

/-- `%M` and `%S`: regex `[0-5]\d|\d`. -/
def candMS : List Char → List (ℕ × List Char)
  | [] => []
  | [a] => if isDigitCh a then [(dVal a, [])] else []
  | a :: b :: r =>
    (if isDigitCh a ∧ isDigitCh b ∧ dVal a ≤ 5 then [(10 * dVal a + dVal b, r)] else []) ++
    (if isDigitCh a then [(dVal a, b :: r)] else [])

/-- `%f`: regex `\d{1,6}`, greedy. -/
def candF (cs : List Char) : List (ℕ × List Char) :=
  (List.range 6).filterMap fun i =>
    let n := 6 - i
    let pre := cs.take n
    if pre.length = n ∧ pre.all isDigitCh then some (digitsToNat pre, cs.drop n) else Option.none

/-- `%Y`: regex `\d\d\d\d`. -/
def candY (cs : List Char) : List (ℕ × List Char) :=
  match readDigits 4 cs with
  | some p => [p]
  | Option.none => []

/-- `%y`: regex `\d\d`, mapped through the POSIX century pivot (00–68 → 2000s,
69–99 → 1900s). -/
def candY2 (cs : List Char) : List (ℕ × List Char) :=
  match readDigits 2 cs with
  | some p => [(if p.1 ≤ 68 then 2000 + p.1 else 1900 + p.1, p.2)]
  | Option.none => []

def monthNamesFull : List (String × ℕ) :=
  [("January", 1), ("February", 2), ("March", 3), ("April", 4), ("May", 5), ("June", 6),
   ("July", 7), ("August", 8), ("September", 9), ("October", 10), ("November", 11),
   ("December", 12)]

def monthNamesAbbr : List (String × ℕ) :=
  [("Jan", 1), ("Feb", 2), ("Mar", 3), ("Apr", 4), ("May", 5), ("Jun", 6), ("Jul", 7),
   ("Aug", 8), ("Sep", 9), ("Oct", 10), ("Nov", 11), ("Dec", 12)]

/-- `%B` / `%b`: case-insensitive month-name alternation. -/
def candName (names : List (String × ℕ)) (cs : List Char) : List (ℕ × List Char) :=
  names.filterMap fun p =>
    if (cs.take p.1.data.length).map lowerCh = p.1.data.map lowerCh
    then some (p.2, cs.drop p.1.data.length) else Option.none

/-- A literal whitespace in a `strptime` format matches `\s+` (greedy). -/
def readWs1 (cs : List Char) : Option (List Char) :=
  match spanD isSpaceCh cs with
  | ([], _) => Option.none
  | (_ :: _, r) => some r

/-! ### The nine formats tried by `ValidationService.validate_date` -/

/-- `%m/%d/%Y` (regex match, leftover allowed). -/
def matchMDY4 (cs : List Char) : Option ((ℕ × ℕ × ℕ) × List Char) :=
  tryCands (candM cs) fun m r1 =>
  (readLit '/' r1).bind fun r2 =>
  tryCands (candD r2) fun d r3 =>
  (readLit '/' r3).bind fun r4 =>
  tryCands (candY r4) fun y r5 =>
  some ((y, m, d), r5)

/-- `%m/%d/%y`. -/
def matchMDY2 (cs : List Char) : Option ((ℕ × ℕ × ℕ) × List Char) :=
  tryCands (candM cs) fun m r1 =>
  (readLit '/' r1).bind fun r2 =>
  tryCands (candD r2) fun d r3 =>
  (readLit '/' r3).bind fun r4 =>
  tryCands (candY2 r4) fun y r5 =>
  some ((y, m, d), r5)

/-- `%d/%m/%Y`. -/
def matchDMY4 (cs : List Char) : Option ((ℕ × ℕ × ℕ) × List Char) :=
  tryCands (candD cs) fun d r1 =>
  (readLit '/' r1).bind fun r2 =>
  tryCands (candM r2) fun m r3 =>
  (readLit '/' r3).bind fun r4 =>
  tryCands (candY r4) fun y r5 =>
  some ((y, m, d), r5)

/-- `%d/%m/%y`. -/
def matchDMY2 (cs : List Char) : Option ((ℕ × ℕ × ℕ) × List Char) :=
  tryCands (candD cs) fun d r1 =>
  (readLit '/' r1).bind fun r2 =>
  tryCands (candM r2) fun m r3 =>
  (readLit '/' r3).bind fun r4 =>
  tryCands (candY2 r4) fun y r5 =>
  some ((y, m, d), r5)

/-- `%B %d, %Y` (a space in the format matches `\s+`). -/
def matchBdY (names : List (String × ℕ)) (cs : List Char) :
    Option ((ℕ × ℕ × ℕ) × List Char) :=
  tryCands (candName names cs) fun m r1 =>
  (readWs1 r1).bind fun r2 =>
  tryCands (candD r2) fun d r3 =>
  (readLit ',' r3).bind fun r4 =>
  (readWs1 r4).bind fun r5 =>
  tryCands (candY r5) fun y r6 =>
  some ((y, m, d), r6)

/-- `%Y/%m/%d`. -/
def matchYMDslash (cs : List Char) : Option ((ℕ × ℕ × ℕ) × List Char) :=
  tryCands (candY cs) fun y r1 =>
  (readLit '/' r1).bind fun r2 =>
  tryCands (candM r2) fun m r3 =>
  (readLit '/' r3).bind fun r4 =>
  tryCands (candD r4) fun d r5 =>
  some ((y, m, d), r5)

/-- `%m-%d-%Y`. -/
def matchMDY4dash (cs : List Char) : Option ((ℕ × ℕ × ℕ) × List Char) :=
  tryCands (candM cs) fun m r1 =>
  (readLit '-' r1).bind fun r2 =>
  tryCands (candD r2) fun d r3 =>
  (readLit '-' r3).bind fun r4 =>
  tryCands (candY r4) fun y r5 =>
  some ((y, m, d), r5)

/-- `%Y%m%d`. -/
def matchYMDcompact (cs : List Char) : Option ((ℕ × ℕ × ℕ) × List Char) :=
  tryCands (candY cs) fun y r1 =>
  tryCands (candM r1) fun m r2 =>
  tryCands (candD r2) fun d r3 =>
  some ((y, m, d), r3)

/-- Run one format: regex match, then the unconverted-data check, then
`datetime` construction (a `ValueError` at any stage fails the format). -/
def applyFmt (matchF : List Char → Option ((ℕ × ℕ × ℕ) × List Char)) (cs : List Char) :
    Option PyDate :=
  (matchF cs).bind fun p =>
    if p.2 = [] then mkDate p.1.1 p.1.2.1 p.1.2.2 else Option.none

/-- The ordered format list in `ValidationService.validate_date`. -/
def tryFormats (cs : List Char) : Option PyDate :=
  firstSome [applyFmt matchMDY4 cs, applyFmt matchMDY2 cs, applyFmt matchDMY4 cs,
    applyFmt matchDMY2 cs, applyFmt (matchBdY monthNamesFull) cs,
    applyFmt (matchBdY monthNamesAbbr) cs, applyFmt matchYMDslash cs,
    applyFmt matchMDY4dash cs, applyFmt matchYMDcompact cs]

theorem firstSome_eq_some {α : Type} {l : List (Option α)} {a : α}
    (h : firstSome l = some a) : some a ∈ l := by
  induction l with
  | nil => exact absurd h (by simp [firstSome])
  | cons x rest ih =>
    cases x with
    | none =>
      unfold firstSome at h
      exact List.mem_cons_of_mem _ (ih h)
    | some b =>
      unfold firstSome at h
      rcases Option.some_injective _ h with rfl
      exact List.mem_cons_self _ _

theorem applyFmt_valid {f : List Char → Option ((ℕ × ℕ × ℕ) × List Char)} {cs : List Char}
    {dt : PyDate} (h : applyFmt f cs = some dt) : ValidDate dt := by
  unfold applyFmt at h
  cases hm : f cs with
  | none => rw [hm] at h; exact absurd h (by simp)
  | some p =>
    rw [hm] at h
    simp only [Option.some_bind] at h
    split at h
    · exact mkDate_valid h
    · exact absurd h (by simp)

theorem tryFormats_valid {cs : List Char} {dt : PyDate} (h : tryFormats cs = some dt) :
    ValidDate dt := by
  unfold tryFormats at h
  have hmem := firstSome_eq_some h
  simp only [List.mem_cons, List.mem_singleton] at hmem
  rcases hmem with h1 | h1 | h1 | h1 | h1 | h1 | h1 | h1 | h1 | h1
  all_goals first
    | exact applyFmt_valid h1.symm
    | exact absurd h1 (by simp)

/-! ## ValidationService (`app/services/validation_service.py`) -/

structure ValidationResult where
  value : PyVal
  warnings : List String
  confidence_adjustment : ℚ
deriving DecidableEq

/-- `ValidationResult.__init__`: the constructor clamps the adjustment to
`[-0.2, 0.2]`. -/
def mkValidationResult (v : PyVal) (w : List String) (adj : ℚ) : ValidationResult :=
  ⟨v, w, max (-(1/5)) (min (1/5) adj)⟩

/-- `ValidationService.validate_date`. -/
def validate_date (value : PyVal) (field_path : String) : ValidationResult :=
  let value_str := pyStrip (pyStr value)
  match parseIsoStrict value_str.data with
  | some ymd =>
    match mkDate ymd.1 ymd.2.1 ymd.2.2 with
    | some _ => mkValidationResult (.str value_str) [] 0
    | Option.none =>
      mkValidationResult PyVal.none ["Invalid date format: " ++ value_str] (-(1/5))
  | Option.none =>
    match tryFormats value_str.data with
    | some dt =>
      mkValidationResult (.str (formatIso dt))
        ["Date format normalized from '" ++ value_str ++ "' to '" ++ formatIso dt ++ "'"] 0
    | Option.none =>
      mkValidationResult (.str value_str) ["Could not parse date: " ++ value_str] (-(1/5))

/-- `ValidationService.validate_currency` (`Decimal` parsing shares the decimal
literal model `parseFloat`). -/
def validate_currency (value : PyVal) (field_path : String) : ValidationResult :=
  let value_str := pyStrip (pyStr value)
  let cleaned := stripChars ['$', ',', '€', '£', '¥'] value_str
  match parseFloat cleaned with
  | some amount =>
    let normalized := roundQ 2 amount
    let w1 := if normalized < 0 then ["Negative currency value: " ++ floatStr normalized] else []
    let w2 := if normalized > 100000000 then
        ["Unusually large currency value: $" ++ fixedFmt 2 true normalized] else []
    let w3 := if value_str ≠ floatStr normalized then
        ["Currency normalized from '" ++ value_str ++ "' to '" ++ floatStr normalized ++ "'"]
      else []
    mkValidationResult (.float normalized) (w1 ++ w2 ++ w3) 0
  | Option.none =>
    mkValidationResult value ["Could not parse currency: " ++ pyStr value] (-(1/5))

/-- `ValidationService.validate_number`. -/
def validate_number (value : PyVal) (field_path : String) : ValidationResult :=
  let cleaned := pyStrip (stripChars [','] (pyStr value))
  match parseFloat cleaned with
  | some num =>
    let w1 := if strIn "month" (pyLower field_path) ∧ (num < 0 ∨ num > 1200) then
        ["Unusual month value: " ++ floatStr num] else []
    let w2 := if ¬ (pyEq value (.float num) = true) then
        ["Number normalized from '" ++ pyStr value ++ "' to '" ++ floatStr num ++ "'"] else []
    mkValidationResult (.float num) (w1 ++ w2) 0
  | Option.none =>
    mkValidationResult value ["Could not parse number: " ++ pyStr value] (-(1/5))

/-- `ValidationService.validate_percentage`. -/
def validate_percentage (value : PyVal) (field_path : String) : ValidationResult :=
  let value_str := pyStrip (stripChars ['%'] (pyStr value))
  match parseFloat value_str with
  | some pct0 =>
    let pct := if pct0 > 1 then pct0 / 100 else pct0
    let w1 := if pct0 > 1 then
        ["Percentage converted from " ++ pyStr value ++ " to " ++ floatStr pct] else []
    let w2 := if pct < 0 ∨ pct > 1 then
        ["Percentage " ++ floatStr pct ++ " outside valid range [0, 1]"] else []
    mkValidationResult (.float (roundQ 4 pct)) (w1 ++ w2) 0
  | Option.none =>
    mkValidationResult value ["Could not parse percentage: " ++ pyStr value] (-(1/5))

def isAlphaCh (c : Char) : Bool :=
  (65 ≤ c.toNat && c.toNat ≤ 90) || (97 ≤ c.toNat && c.toNat ≤ 122)

def isWordCh (c : Char) : Bool := isAlphaCh c || isDigitCh c || c = '_'

/-- Case-insensitive literal string match; returns the rest on success. -/
def readStrCI : List Char → List Char → Option (List Char)
  | [], cs => some cs
  | _ :: _, [] => Option.none
  | p :: ps, c :: cs => if lowerCh c = lowerCh p then readStrCI ps cs else Option.none

/-- One alternative of `(?i)(sf|square\s+feet|sq\.?\s*ft\.?|rsf|usf)`, tried in
regex order at the current position (after `\s*`). -/
def areaAltMatch (cs : List Char) : Option (List Char) :=
  firstSome [
    readStrCI ['s', 'f'] cs,
    (readStrCI "square".data cs).bind fun r1 =>
      (readWs1 r1).bind fun r2 => readStrCI "feet".data r2,
    (readStrCI "sq".data cs).bind fun r1 =>
      readStrCI "ft".data ((spanD isSpaceCh (match r1 with | '.' :: t => t | _ => r1)).2)
        |>.map fun r4 => match r4 with | '.' :: t => t | _ => r4,
    readStrCI "rsf".data cs,
    readStrCI "usf".data cs]

/-- `re.sub(r'(?i)\s*(sf|square\s+feet|sq\.?\s*ft\.?|rsf|usf)', '', ·)` via a
left-to-right scan (`fuel` bounds recursion; callers pass the string length). -/
def areaSubGo : ℕ → List Char → List Char
  | 0, cs => cs
  | _, [] => []
  | fuel + 1, c :: rest =>
    match areaAltMatch ((spanD isSpaceCh (c :: rest)).2) with
    | some r => areaSubGo fuel r
    | Option.none => c :: areaSubGo fuel rest

def areaSub (cs : List Char) : List Char := areaSubGo cs.length cs

/-- `ValidationService.validate_area`. -/
def validate_area (value : PyVal) (field_path : String) : ValidationResult :=
  let cleaned := pyStrip (stripChars [','] (String.mk (areaSub (pyStr value).data)))
  match parseFloat cleaned with
  | some area =>
    let w1 := if area < 1 then ["Very small area: " ++ floatStr area ++ " SF"]
      else if area > 10000000 then ["Very large area: " ++ fixedFmt 0 true area ++ " SF"]
      else []
    let w2 := if strIn "rentable" (pyLower field_path) then
        (if area < 10 then ["Rentable area suspiciously small"] else [])
      else if strIn "usable" (pyLower field_path) then
        (if area < 10 then ["Usable area suspiciously small"] else [])
      else []
    let w3 := if pyStr value ≠ floatStr area then
        ["Area normalized from '" ++ pyStr value ++ "' to '" ++ floatStr area ++ "'"] else []
    mkValidationResult (.float area) (w1 ++ w2 ++ w3) 0
  | Option.none =>
    mkValidationResult value ["Could not parse area: " ++ pyStr value] (-(1/5))

def trueVals : List PyVal :=
  [.str "true", .str "t", .str "yes", .str "y", .str "1", .str "True", .bool true, .int 1]

def falseVals : List PyVal :=
  [.str "false", .str "f", .str "no", .str "n", .str "0", .str "False", .bool false, .int 0]

/-- `ValidationService.validate_boolean` (`in`-membership uses Python `==`). -/
def validate_boolean (value : PyVal) (field_path : String) : ValidationResult :=
  if trueVals.any (pyEq value) then mkValidationResult (.bool true) [] 0
  else if falseVals.any (pyEq value) then mkValidationResult (.bool false) [] 0
  else mkValidationResult PyVal.none ["Could not parse boolean: " ++ pyStr value] (-(1/5))

/-- One alternative of `(?i)(suite|ste\.?|unit|#)`. -/
def suiteTokenMatch (cs : List Char) : Option (List Char) :=
  firstSome [readStrCI "suite".data cs,
    (readStrCI "ste".data cs).map (fun r => match r with | '.' :: t => t | _ => r),
    readStrCI "unit".data cs,
    readStrCI "#".data cs]

/-- `re.search(r'(?i)(suite|ste\.?|unit|#)\s*[\w\d-]+', ·)`. -/
def suiteSearch : List Char → Bool
  | [] => false
  | c :: rest =>
    (match suiteTokenMatch (c :: rest) with
     | some r =>
       decide ((spanD (fun ch => isWordCh ch || ch = '-') ((spanD isSpaceCh r).2)).1 ≠ [])
     | Option.none => false) || suiteSearch rest

def boundaryAfterDigits (cs : List Char) : Bool :=
  match (spanD isDigitCh cs).2 with
  | [] => true
  | d :: _ => !(isWordCh d)

/-- `re.search(r'\b\d+\b', ·)` (scan with the previous character's word-ness). -/
def hasNumGo (prevWord : Bool) : List Char → Bool
  | [] => false
  | c :: rest =>
    (isDigitCh c && !prevWord && boundaryAfterDigits (c :: rest)) || hasNumGo (isWordCh c) rest

def isUpperCh (c : Char) : Bool := 65 ≤ c.toNat && c.toNat ≤ 90

/-- `re.search(r'\b[A-Z]{2}\b', ·)`. -/
def hasStateGo (prevWord : Bool) : List Char → Bool
  | [] => false
  | c :: rest =>
    (isUpperCh c && !prevWord &&
      (match rest with
       | c2 :: r2 =>
         isUpperCh c2 && (match r2 with | [] => true | c3 :: _ => !(isWordCh c3))
       | [] => false)) || hasStateGo (isWordCh c) rest

def boundaryHead (cs : List Char) : Bool :=
  match cs with
  | [] => true
  | c :: _ => !(isWordCh c)

/-- `\d{5}(-\d{4})?\b` anchored at the current position. -/
def zipAt (cs : List Char) : Bool :=
  ((cs.take 5).length = 5 && (cs.take 5).all isDigitCh) &&
    ((match cs.drop 5 with
      | '-' :: r2 =>
        ((r2.take 4).length = 4 && (r2.take 4).all isDigitCh) && boundaryHead (r2.drop 4)
      | _ => false) ||
     boundaryHead (cs.drop 5))

/-- `re.search(r'\b\d{5}(-\d{4})?\b', ·)`. -/
def hasZipGo (prevWord : Bool) : List Char → Bool
  | [] => false
  | c :: rest => (!prevWord && zipAt (c :: rest)) || hasZipGo (isWordCh c) rest

/-- `ValidationService.validate_address`. -/
def validate_address (value : PyVal) (field_path : String) : ValidationResult :=
  let value_str := pyStrip (pyStr value)
  let w1 := if suiteSearch value_str.data ∧ ¬ strIn "suite" (pyLower field_path) = true then
      ["Suite/unit found in address - consider extracting separately"] else []
  let w2 := if ¬ hasNumGo false value_str.data = true then
      ["Address missing street number"] else []
  let w3 := if ¬ hasStateGo false value_str.data = true then
      ["Address missing state abbreviation"] else []
  let w4 := if ¬ hasZipGo false value_str.data = true then
      ["Address missing ZIP code"] else []
  mkValidationResult (.str value_str) (w1 ++ w2 ++ w3 ++ w4) 0

/-- `ValidationService.validate_text`. -/
def validate_text (value : PyVal) (field_path : String) : ValidationResult :=
  let text := pyStrip (pyStr value)
  let w := if text.data.length < 2 ∧ strIn "name" (pyLower field_path) then
      ["Suspiciously short " ++ field_path ++ ": '" ++ text ++ "'"] else []
  mkValidationResult (.str text) w 0

/-! ## Cross-field consistency (`check_consistency`) -/

def alookup {α : Type} (l : List (String × α)) (k : String) : Option α :=
  (l.find? (fun p => p.1 = k)).map (fun p => p.2)

def optTruthy : Option PyVal → Bool
  | Option.none => false
  | some v => pyTruthy v

/-- `strptime(s, '%Y-%m-%d')` including `datetime` validation (note: unlike the
pre-check regex, `%m`/`%d` here also accept one digit). -/
def matchIsoLoose (cs : List Char) : Option ((ℕ × ℕ × ℕ) × List Char) :=
  tryCands (candY cs) fun y r1 =>
  (readLit '-' r1).bind fun r2 =>
  tryCands (candM r2) fun m r3 =>
  (readLit '-' r3).bind fun r4 =>
  tryCands (candD r4) fun d r5 =>
  some ((y, m, d), r5)

def strptimeIso (s : String) : Option PyDate := applyFmt matchIsoLoose s.data

/-- Days since the civil epoch (Hinnant's `days_from_civil`, exact for
`year ≥ 1`); models `datetime` subtraction `.days`. -/
def daysFromCivil (y m d : ℕ) : ℤ :=
  let y2 := if m ≤ 2 then y - 1 else y
  let era := y2 / 400
  let yoe := y2 % 400
  let mp := (m + 9) % 12
  let doy := (153 * mp + 2) / 5 + d - 1
  ((era * 146097 + (yoe * 365 + yoe / 4 - yoe / 100 + doy) : ℕ) : ℤ)

def dateDays (dt : PyDate) : ℤ := daysFromCivil dt.year dt.month dt.day

/-- `ValidationService.check_consistency`.  Each check silently skips
(`except ...: pass`) when a referenced sibling is absent, falsy or unparsable,
or when a division would raise `ZeroDivisionError`. -/
def check_consistency (field_path : String) (value : PyVal)
    (all_extractions : List (String × PyVal)) : List String :=
  let w1 :=
    if field_path = "dates.expiration_date" ∧ pyTruthy value then
      if optTruthy (alookup all_extractions "dates.commencement_date") then
        match alookup all_extractions "dates.commencement_date" with
        | some cd =>
          match strptimeIso (pyStr value), strptimeIso (pyStr cd) with
          | some exp, some comm =>
            if dateDays exp ≤ dateDays comm then
              ["Expiration date should be after commencement date"]
            else []
          | _, _ => []
        | Option.none => []
      else []
    else []
  let w2 :=
    if field_path = "rent.base_rent_annual" ∧ pyTruthy value then
      if optTruthy (alookup all_extractions "rent.base_rent_monthly") then
        match alookup all_extractions "rent.base_rent_monthly" with
        | some monthly =>
          match pyFloat monthly, pyFloat value with
          | some mf, some av =>
            let expected := mf * 12
            if expected = 0 then []
            else if |av - expected| / expected > 1/20 then
              ["Annual rent $" ++ fixedFmt 2 true av ++ " doesn't match monthly $" ++
                fixedFmt 2 true mf ++ " × 12 = $" ++ fixedFmt 2 true expected]
            else []
          | _, _ => []
        | Option.none => []
      else []
    else []
  let w3 :=
    if field_path = "rent.rent_per_sf_annual" ∧ pyTruthy value then
      if optTruthy (alookup all_extractions "rent.base_rent_annual") ∧
          optTruthy (alookup all_extractions "property.rentable_area") then
        match alookup all_extractions "rent.base_rent_annual",
            alookup all_extractions "property.rentable_area" with
        | some annual, some sf =>
          match pyFloat annual, pyFloat sf, pyFloat value with
          | some av, some sfv, some actual =>
            if sfv = 0 then []
            else
              let expected := av / sfv
              let diff := if expected > 0 then |actual - expected| / expected else 0
              if diff > 1/20 then
                ["Rent/SF $" ++ fixedFmt 2 false actual ++ " doesn't match annual rent / SF: $" ++
                  fixedFmt 2 false expected]
              else []
          | _, _, _ => []
        | _, _ => []
      else []
    else []
  let w4 :=
    if field_path = "property.usable_area" ∧ pyTruthy value then
      if optTruthy (alookup all_extractions "property.rentable_area") then
        match alookup all_extractions "property.rentable_area" with
        | some rentable =>
          match pyFloat value, pyFloat rentable with
          | some uv, some rv =>
            if uv > rv then
              ["Usable area (" ++ pyStr value ++ ") greater than rentable area (" ++
                pyStr rentable ++ ")"]
            else []
          | _, _ => []
        | Option.none => []
      else []
    else []
  let w5 :=
    if field_path = "dates.lease_term_months" ∧ pyTruthy value then
      if optTruthy (alookup all_extractions "dates.commencement_date") ∧
          optTruthy (alookup all_extractions "dates.expiration_date") then
        match alookup all_extractions "dates.commencement_date",
            alookup all_extractions "dates.expiration_date" with
        | some comm, some exp =>
          match strptimeIso (pyStr comm), strptimeIso (pyStr exp), pyFloat value with
          | some cd, some ed, some stated =>
            let calculated : ℚ := ((dateDays ed - dateDays cd : ℤ) : ℚ) / (761/25)
            if |calculated - stated| > 1 then
              ["Stated term (" ++ floatStr stated ++ " months) differs from calculated term (" ++
                fixedFmt 1 false calculated ++ " months) based on dates"]
            else []
          | _, _, _ => []
        | _, _ => []
      else []
    else []
  w1 ++ w2 ++ w3 ++ w4 ++ w5

/-! ## `validate_and_normalize` -/

def knownFieldTypes : List String :=
  ["date", "currency", "number", "percentage", "area", "boolean", "address", "text"]

/-- The validator dispatch dictionary (`validators.get(field_type_lower,
validate_text)`). -/
def validatorFor (field_type : String) : PyVal → String → ValidationResult :=
  let t := pyLower field_type
  if t = "date" then validate_date
  else if t = "currency" then validate_currency
  else if t = "number" then validate_number
  else if t = "percentage" then validate_percentage
  else if t = "area" then validate_area
  else if t = "boolean" then validate_boolean
  else if t = "address" then validate_address
  else validate_text

/-- `ValidationService.validate_and_normalize`.  `all_extractions = none`
models passing `None`; dictionary truthiness makes the empty map skip the
consistency pass as well. -/
def validate_and_normalize (field_path : String) (value : PyVal) (field_type : String)
    (all_extractions : Option (List (String × PyVal))) : ValidationResult :=
  if value = PyVal.none then mkValidationResult PyVal.none [] 0
  else
    let result := validatorFor field_type value field_path
    match all_extractions with
    | some ext =>
      if ext ≠ [] ∧ result.value ≠ PyVal.none then
        let cw := check_consistency field_path result.value ext
        ⟨result.value, result.warnings ++ cw,
          if cw ≠ [] then result.confidence_adjustment - 1/10 else result.confidence_adjustment⟩
      else result
    | Option.none => result

/-! ## Multi-pass refinement (`app/services/claude_service.py`)

The provider call itself is an external collaborator: pass 1's result and the
focused pass (as a function of the candidate field list) are parameters. -/

structure Improvement where
  initial_confidence : ℚ
  focused_confidence : ℚ
  improvement : ℚ
deriving DecidableEq

structure ExtractMetadata where
  total_cost : ℚ
  total_cost_present : Bool
  multi_pass : Option Bool
  refined_fields : Option (List String)
  updated_from_refinement : Option (List String)
  refinement_improvements : Option (List (String × Improvement))
  initial_cost : Option ℚ
  refinement_cost : Option ℚ
deriving DecidableEq

structure ExtractionResult where
  extractions : List (String × PyVal)
  reasoning : List (String × PyVal)
  citations : List (String × PyVal)
  confidence : List (String × ℚ)
  metadata : ExtractMetadata
deriving DecidableEq

/-- Python dict assignment `d[k] = v`: replace in place or append. -/
def aset {α : Type} : List (String × α) → String → α → List (String × α)
  | [], k, v => [(k, v)]
  | (k2, v2) :: t, k, v => if k2 = k then (k, v) :: t else (k2, v2) :: aset t k v

/-- `d.get(k)` for the value maps (missing key yields `None`). -/
def agetV (l : List (String × PyVal)) (k : String) : PyVal := (alookup l k).getD PyVal.none

/-- One iteration of the merge loop.  `initial['confidence']` is the same dict
object as `merged['confidence']` (a shallow `.copy()`), so the initial
confidence is read from the accumulating state. -/
def mergeStep (focused : ExtractionResult)
    (st : ExtractionResult × List String × List (String × Improvement)) (field_path : String) :
    ExtractionResult × List String × List (String × Improvement) :=
  let merged := st.1
  let initial_conf := (alookup merged.confidence field_path).getD 0
  let focused_conf := (alookup focused.confidence field_path).getD 0
  let confidence_gain := focused_conf - initial_conf
  if confidence_gain ≥ 1/10 then
    (⟨aset merged.extractions field_path (agetV focused.extractions field_path),
      aset merged.reasoning field_path (agetV focused.reasoning field_path),
      aset merged.citations field_path (agetV focused.citations field_path),
      aset merged.confidence field_path focused_conf,
      merged.metadata⟩,
     st.2.1 ++ [field_path],
     st.2.2 ++ [(field_path, ⟨initial_conf, focused_conf, confidence_gain⟩)])
  else st

/-- `ClaudeService._merge_extraction_results`. -/
def merge_extraction_results (initial focused : ExtractionResult)
    (refined_fields : List String) : ExtractionResult :=
  let st := refined_fields.foldl (mergeStep focused) (initial, [], [])
  let merged := st.1
  let base := merged.metadata
  ⟨merged.extractions, merged.reasoning, merged.citations, merged.confidence,
    ⟨(if focused.metadata.total_cost_present then base.total_cost + focused.metadata.total_cost
      else base.total_cost),
     base.total_cost_present,
     base.multi_pass,
     base.refined_fields,
     some st.2.1,
     some st.2.2,
     (if focused.metadata.total_cost_present then some initial.metadata.total_cost
      else base.initial_cost),
     (if focused.metadata.total_cost_present then some focused.metadata.total_cost
      else base.refinement_cost)⟩⟩

/-- The low-confidence candidate set of
`ClaudeService.extract_lease_data_with_refinement`. -/
def lowConfidenceFields (initial : ExtractionResult) (threshold : ℚ) : List String :=
  (initial.confidence.filter
    (fun p => p.2 < threshold ∧ agetV initial.extractions p.1 ≠ PyVal.none)).map Prod.fst

/-- `ClaudeService.extract_lease_data_with_refinement` (pass 1 result and the
focused pass are parameters; the provider is external). -/
def extract_lease_data_with_refinement (initial : ExtractionResult)
    (focusedOf : List String → ExtractionResult) (confidence_threshold : ℚ) :
    ExtractionResult :=
  let low := lowConfidenceFields initial confidence_threshold
  if low = [] then
    ⟨initial.extractions, initial.reasoning, initial.citations, initial.confidence,
      ⟨initial.metadata.total_cost, initial.metadata.total_cost_present,
       some false, some [],
       initial.metadata.updated_from_refinement, initial.metadata.refinement_improvements,
       initial.metadata.initial_cost, initial.metadata.refinement_cost⟩⟩
  else
    let merged := merge_extraction_results initial (focusedOf low) low
    ⟨merged.extractions, merged.reasoning, merged.citations, merged.confidence,
      ⟨merged.metadata.total_cost, merged.metadata.total_cost_present,
       some true, some low,
       merged.metadata.updated_from_refinement, merged.metadata.refinement_improvements,
       merged.metadata.initial_cost, merged.metadata.refinement_cost⟩⟩

/-! ## Accuracy comparator (`scripts/baseline_accuracy.py`) -/

def date_fields : List String :=
  ["lease_commencement", "lease_expiration", "rent_commencement", "execution_date"]

def number_fields : List String :=
  ["tenant_sq_feet", "base_rent_monthly", "base_rent_annual", "rent_per_sf_annual",
   "security_deposit", "ti_total", "term_months", "pro_rata_share"]

def text_fields : List String :=
  ["tenant_legal_name", "premise_address", "lease_type", "permitted_use",
   "exclusives", "renewal_options", "termination", "expansion"]

def nullTokens : List String :=
  ["n/a", "null", "", "not specified", "not applicable", "#div/0!", "#n/a", "#ref!",
   "#value!", "tbd"]

/-- `normalize_value`: lenient string normalizer mapping null-ish tokens to
`None`. -/
def normalize_value (val : PyVal) : Option String :=
  match val with
  | PyVal.none => Option.none
  | _ =>
    let s := pyStrip (pyStr val)
    if pyLower s ∈ nullTokens then Option.none else some s

/-- `normalize_number`: strip `[,$\s]`, parse, round to 2 places
(`isinstance(val, (int, float))` is also true for `bool`). -/
def normNumberPy : PyVal → Option ℚ
  | PyVal.none => Option.none
  | .bool b => some (roundQ 2 (if b then 1 else 0))
  | .int n => some (roundQ 2 ((n : ℤ) : ℚ))
  | .float q => some (roundQ 2 q)
  | .str s =>
    let cleaned := stripChars [',', '$', ' ', '\t', '\n', '\r'] (pyStrip s)
    match parseFloat cleaned with
    | some x => some (roundQ 2 x)
    | Option.none => Option.none

/-- Exact literal match; returns the rest on success. -/
def readStrX : List Char → List Char → Option (List Char)
  | [], cs => some cs
  | _ :: _, [] => Option.none
  | p :: ps, c :: cs => if c = p then readStrX ps cs else Option.none

/-- The regex group `(\d+(?:\.\d+)?)` (the optional fraction backtracks away
when the dot is not followed by a digit). -/
def readNumTok (cs : List Char) : Option (ℚ × List Char) :=
  match spanD isDigitCh cs with
  | ([], _) => Option.none
  | (I, r1) =>
    match r1 with
    | '.' :: r2 =>
      match spanD isDigitCh r2 with
      | ([], _) => some ((digitsToNat I : ℚ), '.' :: r2)
      | (F, r3) => some ((digitsToNat I : ℚ) + (digitsToNat F : ℚ) / 10 ^ F.length, r3)
    | _ => some ((digitsToNat I : ℚ), r1)

/-- `(?:years?|yrs?)` — candidate rests in regex/greediness order. -/
def candUnitY (cs : List Char) : List (List Char) :=
  [readStrX "years".data cs, readStrX "year".data cs,
   readStrX "yrs".data cs, readStrX "yr".data cs].filterMap id

/-- `(?:months?|mos?)`. -/
def candUnitM (cs : List Char) : List (List Char) :=
  [readStrX "months".data cs, readStrX "month".data cs,
   readStrX "mos".data cs, readStrX "mo".data cs].filterMap id

/-- Tail of the compound term regex after the year unit:
`\s*(?:and|,)?\s*(\d+(?:\.\d+)?)\s*(?:months?|mos?)\s*$`. -/
def termCompoundTail (y : ℚ) (r3 : List Char) : Option ℚ :=
  let r4 := (spanD isSpaceCh r3).2
  let attempt : List Char → Option ℚ := fun r =>
    let r5 := (spanD isSpaceCh r).2
    (readNumTok r5).bind fun p =>
    let r7 := (spanD isSpaceCh p.2).2
    firstSome ((candUnitM r7).map fun r8 =>
      if (spanD isSpaceCh r8).2 = [] then some (roundQ 2 (y * 12 + p.1)) else Option.none)
  firstSome
    [(match r4 with
      | 'a' :: 'n' :: 'd' :: r5 => attempt r5
      | ',' :: r5 => attempt r5
      | _ => Option.none),
     attempt r4]

/-- `^(\d+(?:\.\d+)?)\s*(?:years?|yrs?)\s*(?:and|,)?\s*(\d+(?:\.\d+)?)\s*(?:months?|mos?)\s*$`. -/
def termCompound (cs : List Char) : Option ℚ :=
  (readNumTok cs).bind fun p =>
  let r2 := (spanD isSpaceCh p.2).2
  firstSome ((candUnitY r2).map fun r3 => termCompoundTail p.1 r3)

/-- `^(\d+(?:\.\d+)?)\s*(?:years?|yrs?)\s*$`. -/
def termYearsOnly (cs : List Char) : Option ℚ :=
  (readNumTok cs).bind fun p =>
  let r2 := (spanD isSpaceCh p.2).2
  firstSome ((candUnitY r2).map fun r3 =>
    if (spanD isSpaceCh r3).2 = [] then some (roundQ 2 (p.1 * 12)) else Option.none)

/-- `^(\d+(?:\.\d+)?)\s*(?:months?|mos?)\s*$`. -/
def termMonthsOnly (cs : List Char) : Option ℚ :=
  (readNumTok cs).bind fun p =>
  let r2 := (spanD isSpaceCh p.2).2
  firstSome ((candUnitM r2).map fun r3 =>
    if (spanD isSpaceCh r3).2 = [] then some (roundQ 2 p.1) else Option.none)

/-- `normalize_term_months`. -/
def normTermMonths : PyVal → Option ℚ
  | PyVal.none => Option.none
  | .bool b => some (roundQ 2 (if b then 1 else 0))
  | .int n => some (roundQ 2 ((n : ℤ) : ℚ))
  | .float q => some (roundQ 2 q)
  | .str s0 =>
    let val := pyLower (pyStrip s0)
    match termCompound val.data with
    | some q => some q
    | Option.none =>
      match termYearsOnly val.data with
      | some q => some q
      | Option.none =>
        match termMonthsOnly val.data with
        | some q => some q
        | Option.none => normNumberPy (.str val)

/-- `normalize_pro_rata` (decimal vs percentage auto-scaling). -/
def normalize_pro_rata (gold_val ext_val : PyVal) : Option ℚ × Option ℚ :=
  match normNumberPy gold_val, normNumberPy ext_val with
  | some gn, some en =>
    if 0 < gn ∧ gn < 1 ∧ en > 1 then (some (roundQ 2 (gn * 100)), some en)
    else if 0 < en ∧ en < 1 ∧ gn > 1 then (some gn, some (roundQ 2 (en * 100)))
    else (some gn, some en)
  | _, _ => (Option.none, Option.none)

/-! ### The script's `normalize_date` -/

/-- `%b. %d, %Y`. -/
def matchBdotDY (cs : List Char) : Option ((ℕ × ℕ × ℕ) × List Char) :=
  tryCands (candName monthNamesAbbr cs) fun m r1 =>
  (readLit '.' r1).bind fun r1b =>
  (readWs1 r1b).bind fun r2 =>
  tryCands (candD r2) fun d r3 =>
  (readLit ',' r3).bind fun r4 =>
  (readWs1 r4).bind fun r5 =>
  tryCands (candY r5) fun y r6 =>
  some ((y, m, d), r6)

/-- Time-of-day suffix `%H:%M:%S` (values parsed and discarded). -/
def matchHMS (cs : List Char) : Option (List Char) :=
  tryCands (candH cs) fun _ r1 =>
  (readLit ':' r1).bind fun r2 =>
  tryCands (candMS r2) fun _ r3 =>
  (readLit ':' r3).bind fun r4 =>
  tryCands (candMS r4) fun _ r5 =>
  some r5

/-- `%Y-%m-%dT%H:%M:%S` (the literal `T` matches case-insensitively). -/
def matchIsoT (cs : List Char) : Option ((ℕ × ℕ × ℕ) × List Char) :=
  (matchIsoLoose cs).bind fun p =>
  (readLitCI 'T' p.2).bind fun r1 =>
  (matchHMS r1).map fun r2 => (p.1, r2)

/-- `%Y-%m-%dT%H:%M:%S.%f`. -/
def matchIsoTF (cs : List Char) : Option ((ℕ × ℕ × ℕ) × List Char) :=
  (matchIsoT cs).bind fun p =>
  (readLit '.' p.2).bind fun r1 =>
  tryCands (candF r1) fun _ r2 =>
  some (p.1, r2)

/-- `%Y-%m-%d %H:%M:%S`. -/
def matchIsoSpaceT (cs : List Char) : Option ((ℕ × ℕ × ℕ) × List Char) :=
  (matchIsoLoose cs).bind fun p =>
  (readWs1 p.2).bind fun r1 =>
  (matchHMS r1).map fun r2 => (p.1, r2)

/-- `%d %B %Y` / `%d %b %Y`. -/
def matchDnameY (names : List (String × ℕ)) (cs : List Char) :
    Option ((ℕ × ℕ × ℕ) × List Char) :=
  tryCands (candD cs) fun d r1 =>
  (readWs1 r1).bind fun r2 =>
  tryCands (candName names r2) fun m r3 =>
  (readWs1 r3).bind fun r4 =>
  tryCands (candY r4) fun y r5 =>
  some ((y, m, d), r5)

/-- `%B %d %Y` / `%b %d %Y` (no comma). -/
def matchNameDY (names : List (String × ℕ)) (cs : List Char) :
    Option ((ℕ × ℕ × ℕ) × List Char) :=
  tryCands (candName names cs) fun m r1 =>
  (readWs1 r1).bind fun r2 =>
  tryCands (candD r2) fun d r3 =>
  (readWs1 r3).bind fun r4 =>
  tryCands (candY r4) fun y r5 =>
  some ((y, m, d), r5)

/-- `%m-%d-%y`. -/
def matchMDY2dash (cs : List Char) : Option ((ℕ × ℕ × ℕ) × List Char) :=
  tryCands (candM cs) fun m r1 =>
  (readLit '-' r1).bind fun r2 =>
  tryCands (candD r2) fun d r3 =>
  (readLit '-' r3).bind fun r4 =>
  tryCands (candY2 r4) fun y r5 =>
  some ((y, m, d), r5)

/-- The ordered format list in the script's `normalize_date`. -/
def scriptFormats : List (List Char → Option ((ℕ × ℕ × ℕ) × List Char)) :=
  [matchMDY4, matchMDY2, matchBdY monthNamesFull, matchBdY monthNamesAbbr, matchBdotDY,
   matchIsoT, matchIsoTF, matchIsoSpaceT,
   matchDnameY monthNamesFull, matchDnameY monthNamesAbbr,
   matchNameDY monthNamesFull, matchNameDY monthNamesAbbr,
   matchMDY4dash, matchMDY2dash, matchYMDslash]

/-- The four formats retried after stripping ordinal suffixes. -/
def scriptRetryFormats : List (List Char → Option ((ℕ × ℕ × ℕ) × List Char)) :=
  [matchBdY monthNamesFull, matchBdY monthNamesAbbr,
   matchDnameY monthNamesFull, matchDnameY monthNamesAbbr]

def ordSuffix (cs : List Char) : Option (List Char) :=
  match cs with
  | c1 :: c2 :: r =>
    if (c1 = 's' ∧ c2 = 't') ∨ (c1 = 'n' ∧ c2 = 'd') ∨ (c1 = 'r' ∧ c2 = 'd') ∨
        (c1 = 't' ∧ c2 = 'h') then some r else Option.none
  | _ => Option.none

/-- `re.sub(r'(\d+)(st|nd|rd|th)', r'\1', ·)` (`fuel` bounds the scan). -/
def ordSubGo : ℕ → List Char → List Char
  | 0, cs => cs
  | _, [] => []
  | fuel + 1, c :: rest =>
    if isDigitCh c then
      match spanD isDigitCh (c :: rest) with
      | (run, tail) =>
        match ordSuffix tail with
        | some r => run ++ ordSubGo fuel r
        | Option.none => run ++ ordSubGo fuel tail
    else c :: ordSubGo fuel rest

def ordSub (cs : List Char) : List Char := ordSubGo cs.length cs

def dateNullTokens : List String := ["none", "null", "n/a", "tbd", "not specified"]

/-- The script's `normalize_date` (returns the original string on failure). -/
def normalize_date_script (v : PyVal) : Option String :=
  match v with
  | PyVal.none => Option.none
  | _ =>
    let val := pyStrip (pyStr v)
    if val = "" ∨ pyLower val ∈ dateNullTokens then Option.none
    else if (parseIsoStrict val.data).isSome then some val
    else
      match firstSome (scriptFormats.map (fun f => applyFmt f val.data)) with
      | some dt => some (formatIso dt)
      | Option.none =>
        let cleaned := String.mk (ordSub val.data)
        if cleaned ≠ val then
          match firstSome (scriptRetryFormats.map (fun f => applyFmt f cleaned.data)) with
          | some dt => some (formatIso dt)
          | Option.none => some val
        else some val

/-! ### `compare_values` text machinery -/

def noneExact : List String := ["none", "none.", "n/a", "no", "not applicable", "not applicable."]

def noPhraseWords : List String :=
  ["option", "renewal", "expansion", "termination", "right", "provision", "exclusive"]

/-- `re.match(r'^no\s+(option|renewal|expansion|termination|right|provision|exclusive)', ·)`. -/
def noPhrase (cs : List Char) : Bool :=
  match readStrX "no".data cs with
  | Option.none => false
  | some r1 =>
    match spanD isSpaceCh r1 with
    | ([], _) => false
    | (_ :: _, r2) => noPhraseWords.any (fun w => (readStrX w.data r2).isSome)

def nnnVariants : List String := ["nnn", "triple net", "net net net"]

def nnVariants : List String := ["nn", "double net", "net net"]

def grossVariants : List String := ["gross", "full service"]

def modifiedVariants : List String := ["modified gross", "modified net"]

/-- The `lease_type` synonym-cluster block of `compare_values`; cluster
membership is substring containment, checked in source order. -/
def leaseTypeCheck (g_lower e_lower : String) : Option (Bool × String) :=
  let g_is_nnn := nnnVariants.any (fun v => strIn v g_lower)
  let e_is_nnn := nnnVariants.any (fun v => strIn v e_lower)
  if g_is_nnn ∧ e_is_nnn then some (true, "nnn_match")
  else
    let g_is_nn := nnVariants.any (fun v => strIn v g_lower) ∧ ¬ g_is_nnn = true
    let e_is_nn := nnVariants.any (fun v => strIn v e_lower) ∧ ¬ e_is_nnn = true
    if g_is_nn ∧ e_is_nn then some (true, "nn_match")
    else if grossVariants.any (fun v => strIn v g_lower) ∧
        grossVariants.any (fun v => strIn v e_lower) then some (true, "gross_match")
    else if modifiedVariants.any (fun v => strIn v g_lower) ∧
        modifiedVariants.any (fun v => strIn v e_lower) then some (true, "modified_match")
    else Option.none

def addrAbbrevs : List (String × String) :=
  [("pkwy", "parkway"), ("blvd", "boulevard"), ("st", "street"), ("ave", "avenue"),
   ("dr", "drive"), ("rd", "road"), ("ln", "lane"), ("ct", "court"), ("pl", "place"),
   ("hwy", "highway"), ("ste", "suite"), ("tx", "texas"), ("ca", "california"),
   ("fl", "florida"), ("ny", "new york")]

/-- `re.sub(r'\b' + abbr + r'\b', full, ·)` for a letter-only `abbr`. -/
def wordSubGo (abbr full : List Char) : ℕ → Bool → List Char → List Char
  | 0, _, cs => cs
  | _, _, [] => []
  | fuel + 1, prevWord, c :: rest =>
    match readStrX abbr (c :: rest) with
    | some r =>
      if ¬ prevWord = true ∧ boundaryHead r = true then
        full ++ wordSubGo abbr full fuel true r
      else c :: wordSubGo abbr full fuel (isWordCh c) rest
    | Option.none => c :: wordSubGo abbr full fuel (isWordCh c) rest

def wordSub (abbr full s : String) : String :=
  String.mk (wordSubGo abbr.data full.data s.data.length false s.data)

def addrExpand (s : String) : String :=
  addrAbbrevs.foldl (fun acc p => wordSub p.1 p.2 acc) s

def isCommaWs (c : Char) : Bool := c = ',' || isSpaceCh c

/-- `re.sub(r'[,\s]+', ' ', ·)`. -/
def collapseGo : ℕ → List Char → List Char
  | 0, cs => cs
  | _, [] => []
  | fuel + 1, c :: rest =>
    if isCommaWs c then ' ' :: collapseGo fuel ((spanD isCommaWs (c :: rest)).2)
    else c :: collapseGo fuel rest

/-- Address normalization in `compare_values`: abbreviation expansion, then
comma/whitespace collapse and strip. -/
def addrNorm (s : String) : String :=
  let e := addrExpand s
  pyStrip (String.mk (collapseGo e.data.length e.data))

def stopWords : List String :=
  ["the", "a", "an", "of", "and", "in", "for", "to", "at", "is", "be", "or",
   "llc", "inc", "ltd", "co", "shall", "will", "with", "its", "such", "any"]

def keepWordCh (c : Char) : Bool :=
  (97 ≤ c.toNat && c.toNat ≤ 122) || isDigitCh c || isSpaceCh c

def splitWsGo : List Char → List Char → List (List Char)
  | [], acc => if acc = [] then [] else [acc.reverse]
  | c :: r, acc =>
    if isSpaceCh c then
      (if acc = [] then splitWsGo r [] else acc.reverse :: splitWsGo r [])
    else splitWsGo r (c :: acc)

/-- `re.sub(r'[^a-z0-9\s]', '', s).split()` as a word set minus stop words. -/
def wordSet (s : String) : Finset String :=
  ((splitWsGo (s.data.filter keepWordCh) []).map String.mk).toFinset \ stopWords.toFinset

def long_text_fields : List String :=
  ["permitted_use", "exclusives", "renewal_options", "termination", "expansion"]

def pctFmtP (prec : ℕ) (q : ℚ) : String := fixedFmt prec false (q * 100) ++ "%"

def fmtOptStr : Option String → String
  | Option.none => "None"
  | some s => s

def optStrTruthy : Option String → Bool
  | Option.none => false
  | some s => decide (s ≠ "")

/-- The text-equivalence chain of `compare_values` (both values non-null). -/
def compareText (g e : String) (field_name : String) : Bool × String :=
  let g_lower := pyLower g
  let e_lower := pyLower e
  let g_is_none := pyStripChar '.' g_lower ∈ noneExact
  let e_is_none := pyStripChar '.' e_lower ∈ noneExact ∨ noPhrase e_lower.data
  if g_is_none ∧ e_is_none then (true, "both_none_semantic")
  else if g_lower = e_lower then (true, "exact_text_match")
  else
    match (if field_name = "lease_type" then leaseTypeCheck g_lower e_lower else Option.none) with
    | some r => r
    | Option.none =>
      let gl := if field_name = "premise_address" then addrNorm g_lower else g_lower
      let el := if field_name = "premise_address" then addrNorm e_lower else e_lower
      if field_name = "premise_address" ∧ gl = el then (true, "address_normalized_match")
      else if gl.data.length > 5 ∧ (strIn gl el ∨ strIn el gl) then (true, "text_contains")
      else
        let g_words := wordSet gl
        let e_words := wordSet el
        if g_words ≠ ∅ ∧ e_words ≠ ∅ then
          let overlap : ℚ := ((g_words ∩ e_words).card : ℚ) / ((max g_words.card 1 : ℕ) : ℚ)
          let threshold : ℚ := if field_name ∈ long_text_fields then 2/5 else 3/5
          if overlap ≥ threshold then (true, "word_overlap (" ++ pctFmtP 0 overlap ++ ")")
          else (false, "text_mismatch")
        else (false, "text_mismatch")

/-- The numeric branch of `compare_values` (both values non-null). -/
def compareNum (g e : String) (field_name : String) : Bool × String :=
  let p : Option ℚ × Option ℚ :=
    if field_name = "term_months" then (normTermMonths (.str g), normTermMonths (.str e))
    else if field_name = "pro_rata_share" then normalize_pro_rata (.str g) (.str e)
    else (normNumberPy (.str g), normNumberPy (.str e))
  match p with
  | (some gn, some en) =>
    if gn = 0 then
      (decide (en = 0), "zero_compare: gold=" ++ floatStr gn ++ " ext=" ++ floatStr en)
    else
      let rdev := |en - gn| / |gn|
      if rdev ≤ 1/20 then (true, "number_match (ratio=" ++ fixedFmt 3 false rdev ++ ")")
      else (false, "number_mismatch: gold=" ++ floatStr gn ++ " ext=" ++ floatStr en ++
        " (off by " ++ pctFmtP 1 rdev ++ ")")
  | _ => (false, "number_parse_fail: gold=" ++ g ++ " ext=" ++ e)

/-- `compare_values(gold_val, extracted_val, field_name)`. -/
def compare_values (gold_val extracted_val : PyVal) (field_name : String) : Bool × String :=
  match normalize_value gold_val, normalize_value extracted_val with
  | Option.none, Option.none => (true, "both_null")
  | Option.none, some _ => (false, "gold_null_extracted_present")
  | some g, Option.none =>
    if field_name ∈ number_fields ∧ normNumberPy (.str g) = some 0 then
      (true, "zero_vs_null")
    else (false, "extracted_null")
  | some g, some e =>
    if field_name ∈ date_fields then
      let gd := normalize_date_script (.str g)
      let ed := normalize_date_script (.str e)
      if optStrTruthy gd ∧ optStrTruthy ed ∧ gd = ed then (true, "exact_date_match")
      else (false, "date_mismatch: gold=" ++ fmtOptStr gd ++ " ext=" ++ fmtOptStr ed)
    else if field_name ∈ number_fields then compareNum g e field_name
    else if field_name ∈ text_fields then compareText g e field_name
    else (false, "unknown_field_type")

/-! ## Claim theorems -/

theorem number_not_date {f : String} (h : f ∈ number_fields) : f ∉ date_fields := by
  fin_cases h <;> decide

/-- C5: in `compare(gold, extracted, field_name)`, both-null is a match
(`both_null`); gold-null with extracted present is a mismatch; gold present
with extracted null is a mismatch except for numeric fields whose gold
normalizes to exactly 0, which match as `zero_vs_null`; the zero/null
equivalence is asymmetric because a null gold with extracted 0 falls into the
gold-null mismatch branch. -/
theorem compare_null_handling :
    (∀ (field : String) (g e : PyVal), normalize_value g = Option.none →
      normalize_value e = Option.none → compare_values g e field = (true, "both_null")) ∧
    (∀ (field : String) (g e : PyVal) (es : String), normalize_value g = Option.none →
      normalize_value e = some es →
      compare_values g e field = (false, "gold_null_extracted_present")) ∧
    (∀ (field : String) (g e : PyVal) (gs : String), normalize_value g = some gs →
      normalize_value e = Option.none → field ∈ number_fields →
      normNumberPy (.str gs) = some 0 → compare_values g e field = (true, "zero_vs_null")) ∧
    (∀ (field : String) (g e : PyVal) (gs : String), normalize_value g = some gs →
      normalize_value e = Option.none →
      ¬ (field ∈ number_fields ∧ normNumberPy (.str gs) = some 0) →
      compare_values g e field = (false, "extracted_null")) := by
  refine ⟨?_, ?_, ?_, ?_⟩
  · intro field g e hg he
    simp only [compare_values, hg, he]
  · intro field g e es hg he
    simp only [compare_values, hg, he]
  · intro field g e gs hg he hmem hzero
    simp only [compare_values, hg, he]
    rw [if_pos ⟨hmem, hzero⟩]
  · intro field g e gs hg he hneg
    simp only [compare_values, hg, he]
    rw [if_neg hneg]

/-- C5 witness: `compare(None, None, "permitted_use")`, the asymmetry
`compare(None, 0, "security_deposit")`, and `compare(0, None,
"security_deposit")`. -/
theorem compare_null_handling_witness :
    compare_values PyVal.none PyVal.none "permitted_use" = (true, "both_null") ∧
    compare_values (PyVal.int 0) PyVal.none "security_deposit" = (true, "zero_vs_null") ∧
    compare_values PyVal.none (PyVal.int 0) "security_deposit" =
      (false, "gold_null_extracted_present") :=
  ⟨compare_null_handling.1 "permitted_use" PyVal.none PyVal.none (by decide) (by decide),
   compare_null_handling.2.2.1 "security_deposit" (PyVal.int 0) PyVal.none "0" (by decide)
     (by decide) (by decide) (by decide),
   compare_null_handling.2.1 "security_deposit" PyVal.none (PyVal.int 0) "0" (by decide)
     (by decide)⟩

/-- C9 counterexample: for a field name outside all three equivalence classes,
`compare_values` is not a forced mismatch regardless of the values — the null
branches run first, so both-null compares as a match (`both_null`), not
`unknown_field_type`. -/
theorem compare_unknown_both_null_cex :
    compare_values PyVal.none PyVal.none "bogus_field" = (true, "both_null") ∧
    (compare_values PyVal.none PyVal.none "bogus_field").1 = true ∧
    "bogus_field" ∉ date_fields ∧ "bogus_field" ∉ number_fields ∧
    "bogus_field" ∉ text_fields := by
  refine ⟨by decide, by decide, by decide, by decide, by decide⟩

/-- C9 amended: for a field name outside the three equivalence classes,
`compare_values` returns the forced mismatch `(False, 'unknown_field_type')`
whenever both values survive null normalization; when either side normalizes
to null, the null branches answer first. -/
theorem compare_unknown_field_mismatch (field : String) (g e : PyVal) (gs es : String)
    (hf1 : field ∉ date_fields) (hf2 : field ∉ number_fields) (hf3 : field ∉ text_fields)
    (hg : normalize_value g = some gs) (he : normalize_value e = some es) :
    compare_values g e field = (false, "unknown_field_type") := by
  simp only [compare_values, hg, he]
  rw [if_neg hf1, if_neg hf2, if_neg hf3]

/-- C9 witness. -/
theorem compare_unknown_field_mismatch_witness :
    compare_values (PyVal.str "alpha") (PyVal.str "beta") "bogus_field" =
      (false, "unknown_field_type") :=
  compare_unknown_field_mismatch "bogus_field" (PyVal.str "alpha") (PyVal.str "beta")
    "alpha" "beta" (by decide) (by decide) (by decide) (by decide) (by decide)

/-- C7: for numeric fields other than `term_months` and `pro_rata_share`, when
both sides normalize to numbers and the gold number is nonzero, the comparison
matches exactly when the relative deviation `|en − gn| / |gn|` is at most 5%;
when the gold number is exactly 0, it matches exactly when the extracted
number is exactly 0. -/
theorem compare_numeric_tolerance (field : String) (g e : PyVal) (gs es : String) (gn en : ℚ)
    (hmem : field ∈ number_fields) (ht : field ≠ "term_months") (hp : field ≠ "pro_rata_share")
    (hg : normalize_value g = some gs) (he : normalize_value e = some es)
    (hgn : normNumberPy (.str gs) = some gn) (hen : normNumberPy (.str es) = some en) :
    (gn ≠ 0 → ((compare_values g e field).1 = true ↔ |en - gn| / |gn| ≤ 1/20)) ∧
    (gn = 0 → ((compare_values g e field).1 = true ↔ en = 0)) := by
  have hnd : field ∉ date_fields := number_not_date hmem
  have hcv : compare_values g e field = compareNum gs es field := by
    simp only [compare_values, hg, he]
    rw [if_neg hnd, if_pos hmem]
  rw [hcv]
  unfold compareNum
  rw [if_neg ht, if_neg hp, hgn, hen]
  constructor
  · intro hgn0
    by_cases hr : |en - gn| / |gn| ≤ 1/20
    · simp only [if_neg hgn0, if_pos hr]
      simpa using hr
    · simp only [if_neg hgn0, if_neg hr]
      simpa using hr
  · intro hgn0
    simp only [if_pos hgn0]
    simp

/-- C7 witness: gold 100000 vs extracted 105000 sits exactly at the 5%
boundary and matches; 105001 exceeds it and mismatches. -/
theorem compare_numeric_tolerance_witness :
    (compare_values (PyVal.int 100000) (PyVal.int 105000) "security_deposit").1 = true ∧
    (compare_values (PyVal.int 100000) (PyVal.int 105001) "security_deposit").1 = false := by
  constructor
  · exact ((compare_numeric_tolerance "security_deposit" (PyVal.int 100000) (PyVal.int 105000)
      "100000" "105000" 100000 105000 (by decide) (by decide) (by decide) (by decide)
      (by decide) (by decide) (by decide)).1 (by norm_num)).mpr (by norm_num)
  · have h := ((compare_numeric_tolerance "security_deposit" (PyVal.int 100000)
      (PyVal.int 105001) "100000" "105001" 100000 105001 (by decide) (by decide) (by decide)
      (by decide) (by decide) (by decide) (by decide)).1 (by norm_num))
    rcases hb : (compare_values (PyVal.int 100000) (PyVal.int 105001) "security_deposit").1 with _ | _
    · rfl
    · exfalso
      have := h.mp (by rw [hb])
      norm_num at this

/-- C8 counterexample: gold `'modified gross'` vs extracted `'gross'` cross the
modified-gross and gross clusters, yet `compare_values` reports a match
(`gross_match`), because cluster membership is substring containment and
`'gross'` occurs inside `'modified gross'`. -/
theorem lease_type_cross_cluster_cex :
    compare_values (PyVal.str "modified gross") (PyVal.str "gross") "lease_type" =
      (true, "gross_match") := by decide

/-- C8 amended: each `lease_type` cluster check fires only when both sides
contain a variant of that same cluster (membership is substring containment,
checked in source order with the double-net cluster excluding triple-net); a
value containing another cluster's term can therefore belong to both clusters,
and cross-cluster pairs can still match through the later containment and
word-overlap rules. -/
theorem lease_type_cluster_within (g e : String) (r : Bool × String)
    (h : leaseTypeCheck g e = some r) :
    (r = (true, "nnn_match") ∧ nnnVariants.any (fun v => strIn v g) = true ∧
      nnnVariants.any (fun v => strIn v e) = true) ∨
    (r = (true, "nn_match") ∧ nnVariants.any (fun v => strIn v g) = true ∧
      nnVariants.any (fun v => strIn v e) = true ∧
      nnnVariants.any (fun v => strIn v g) = false ∧
      nnnVariants.any (fun v => strIn v e) = false) ∨
    (r = (true, "gross_match") ∧ grossVariants.any (fun v => strIn v g) = true ∧
      grossVariants.any (fun v => strIn v e) = true) ∨
    (r = (true, "modified_match") ∧ modifiedVariants.any (fun v => strIn v g) = true ∧
      modifiedVariants.any (fun v => strIn v e) = true) := by
  simp only [leaseTypeCheck] at h
  split at h
  · rename_i hc
    exact Or.inl ⟨(Option.some_injective _ h).symm, hc.1, hc.2⟩
  · rename_i hc1
    split at h
    · rename_i hc
      refine Or.inr (Or.inl ⟨(Option.some_injective _ h).symm, hc.1.1, hc.2.1, ?_, ?_⟩)
      · exact Bool.eq_false_iff.mpr hc.1.2
      · exact Bool.eq_false_iff.mpr hc.2.2
    · split at h
      · rename_i hc
        exact Or.inr (Or.inr (Or.inl ⟨(Option.some_injective _ h).symm, hc.1, hc.2⟩))
      · split at h
        · rename_i hc
          exact Or.inr (Or.inr (Or.inr ⟨(Option.some_injective _ h).symm, hc.1, hc.2⟩))
        · exact absurd h (by simp)

/-- C8 witness: a genuine within-cluster pair. -/
theorem lease_type_cluster_within_witness :
    leaseTypeCheck "nnn" "triple net lease" = some (true, "nnn_match") ∧
    (((true, "nnn_match") = ((true : Bool), "nnn_match") ∧
      nnnVariants.any (fun v => strIn v "nnn") = true ∧
      nnnVariants.any (fun v => strIn v "triple net lease") = true) ∨
    (((true : Bool), "nnn_match") = ((true : Bool), "nn_match") ∧
      nnVariants.any (fun v => strIn v "nnn") = true ∧
      nnVariants.any (fun v => strIn v "triple net lease") = true ∧
      nnnVariants.any (fun v => strIn v "nnn") = false ∧
      nnnVariants.any (fun v => strIn v "triple net lease") = false) ∨
    (((true : Bool), "nnn_match") = ((true : Bool), "gross_match") ∧
      grossVariants.any (fun v => strIn v "nnn") = true ∧
      grossVariants.any (fun v => strIn v "triple net lease") = true) ∨
    (((true : Bool), "nnn_match") = ((true : Bool), "modified_match") ∧
      modifiedVariants.any (fun v => strIn v "nnn") = true ∧
      modifiedVariants.any (fun v => strIn v "triple net lease") = true)) :=
  ⟨by decide, lease_type_cluster_within "nnn" "triple net lease" (true, "nnn_match") (by decide)⟩

/-- C6 counterexample: `"2024-13-01"` matches the ISO shape but no known format
parses it as a date, and `validate_date` replaces the value by null instead of
returning the original string. -/
theorem validate_date_iso_invalid_cex :
    (validate_date (PyVal.str "2024-13-01") "dates.commencement_date").value = PyVal.none ∧
    (validate_date (PyVal.str "2024-13-01") "dates.commencement_date").value ≠
      PyVal.str "2024-13-01" ∧
    (validate_date (PyVal.str "2024-13-01") "dates.commencement_date").confidence_adjustment =
      -(1/5) := by
  refine ⟨by decide, by decide, by decide⟩

/-- C6 amended: on parse failure `validate_date` never raises and applies a
`-0.2` adjustment with a warning; for inputs that do not match the ISO shape
it returns the (stripped) original string, while ISO-shaped strings that are
not valid dates are replaced by null. -/
theorem validate_date_failure_behavior :
    (∀ (s : String) (fp : String), parseIsoStrict (pyStrip s).data = Option.none →
      tryFormats (pyStrip s).data = Option.none →
      validate_date (PyVal.str s) fp =
        ⟨PyVal.str (pyStrip s), ["Could not parse date: " ++ pyStrip s], -(1/5)⟩) ∧
    (∀ (s : String) (fp : String) (ymd : ℕ × ℕ × ℕ),
      parseIsoStrict (pyStrip s).data = some ymd →
      mkDate ymd.1 ymd.2.1 ymd.2.2 = Option.none →
      validate_date (PyVal.str s) fp =
        ⟨PyVal.none, ["Invalid date format: " ++ pyStrip s], -(1/5)⟩) := by
  have hclamp : max (-(1/5) : ℚ) (min (1/5) (-(1/5))) = -(1/5) := by norm_num
  constructor
  · intro s fp hiso hfmt
    simp only [validate_date, pyStr, hiso, hfmt, mkValidationResult, hclamp]
  · intro s fp ymd hiso hmk
    simp only [validate_date, pyStr, hiso, hmk, mkValidationResult, hclamp]

/-- C6 witness. -/
theorem validate_date_failure_behavior_witness :
    validate_date (PyVal.str "hello") "dates.commencement_date" =
      ⟨PyVal.str "hello", ["Could not parse date: hello"], -(1/5)⟩ ∧
    validate_date (PyVal.str "2024-02-30") "dates.commencement_date" =
      ⟨PyVal.none, ["Invalid date format: 2024-02-30"], -(1/5)⟩ :=
  ⟨by
    have h := validate_date_failure_behavior.1 "hello" "dates.commencement_date"
      (by decide) (by decide)
    simpa using h,
   by
    have h := validate_date_failure_behavior.2 "2024-02-30" "dates.commencement_date"
      (2024, 2, 30) (by decide) (by decide)
    simpa using h⟩

/-- C10: `validate_and_normalize` is total by construction (every parse error
is the `none` branch of an `Option`, every consistency failure a silent skip);
a null raw value short-circuits to a clean result, and any field type whose
lowercase form is not one of the eight known types is routed to the text
rule. -/
theorem validate_and_normalize_total :
    (∀ (fp : String) (v : PyVal) (ft : String)
      (sib : Option (List (String × PyVal))), pyLower ft ∉ knownFieldTypes →
      validate_and_normalize fp v ft sib = validate_and_normalize fp v "text" sib) ∧
    (∀ (fp ft : String) (sib : Option (List (String × PyVal))),
      validate_and_normalize fp PyVal.none ft sib = ⟨PyVal.none, [], 0⟩) := by
  constructor
  · intro fp v ft sib hft
    have hroute : validatorFor ft = validate_text := by
      unfold validatorFor
      have h1 : pyLower ft ≠ "date" := fun hc => hft (by rw [hc]; decide)
      have h2 : pyLower ft ≠ "currency" := fun hc => hft (by rw [hc]; decide)
      have h3 : pyLower ft ≠ "number" := fun hc => hft (by rw [hc]; decide)
      have h4 : pyLower ft ≠ "percentage" := fun hc => hft (by rw [hc]; decide)
      have h5 : pyLower ft ≠ "area" := fun hc => hft (by rw [hc]; decide)
      have h6 : pyLower ft ≠ "boolean" := fun hc => hft (by rw [hc]; decide)
      have h7 : pyLower ft ≠ "address" := fun hc => hft (by rw [hc]; decide)
      simp [h1, h2, h3, h4, h5, h6, h7]
    have htext : validatorFor "text" = validate_text := by
      unfold validatorFor
      rw [show pyLower "text" = "text" from by decide]
      simp
    unfold validate_and_normalize
    rw [hroute, htext]
  · intro fp ft sib
    unfold validate_and_normalize
    rw [if_pos rfl]
    unfold mkValidationResult
    norm_num

/-- C10 witness: an unknown field type (`"BOGUS"`) routes to the text rule and
a null value short-circuits. -/
theorem validate_and_normalize_total_witness :
    validate_and_normalize "f" (PyVal.str "x") "BOGUS" Option.none =
      validate_and_normalize "f" (PyVal.str "x") "text" Option.none ∧
    validate_and_normalize "f" PyVal.none "date" Option.none = ⟨PyVal.none, [], 0⟩ :=
  ⟨validate_and_normalize_total.1 "f" (PyVal.str "x") "BOGUS" Option.none (by decide),
   validate_and_normalize_total.2 "f" "date" Option.none⟩

/-- C1 counterexample: a numeric field whose value fails to parse (`True`,
penalty −0.2 clamped at construction) and then triggers the annual-vs-monthly
consistency warning receives the additional −0.1 after the clamp, giving a
final adjustment of −0.3, outside [−0.2, 0.2]. -/
theorem validate_adjustment_unclamped_cex :
    (validate_and_normalize "rent.base_rent_annual" (PyVal.bool true) "number"
      (some [("rent.base_rent_monthly", PyVal.int 100)])).confidence_adjustment = -(3/10) ∧
    ¬ (-(1/5) ≤ (validate_and_normalize "rent.base_rent_annual" (PyVal.bool true) "number"
      (some [("rent.base_rent_monthly", PyVal.int 100)])).confidence_adjustment) := by
  refine ⟨by decide, by decide⟩

theorem mkValidationResult_adj_range (v : PyVal) (w : List String) (adj : ℚ) :
    -(1/5) ≤ (mkValidationResult v w adj).confidence_adjustment ∧
    (mkValidationResult v w adj).confidence_adjustment ≤ 1/5 := by
  unfold mkValidationResult
  refine ⟨le_max_left _ _, max_le (by norm_num) (min_le_left _ _)⟩

theorem validate_date_adj_range (v : PyVal) (fp : String) :
    -(1/5) ≤ (validate_date v fp).confidence_adjustment ∧
    (validate_date v fp).confidence_adjustment ≤ 1/5 := by
  simp only [validate_date]
  repeat' split
  all_goals exact mkValidationResult_adj_range _ _ _

theorem validate_currency_adj_range (v : PyVal) (fp : String) :
    -(1/5) ≤ (validate_currency v fp).confidence_adjustment ∧
    (validate_currency v fp).confidence_adjustment ≤ 1/5 := by
  simp only [validate_currency]
  repeat' split
  all_goals exact mkValidationResult_adj_range _ _ _

theorem validate_number_adj_range (v : PyVal) (fp : String) :
    -(1/5) ≤ (validate_number v fp).confidence_adjustment ∧
    (validate_number v fp).confidence_adjustment ≤ 1/5 := by
  simp only [validate_number]
  repeat' split
  all_goals exact mkValidationResult_adj_range _ _ _

theorem validate_percentage_adj_range (v : PyVal) (fp : String) :
    -(1/5) ≤ (validate_percentage v fp).confidence_adjustment ∧
    (validate_percentage v fp).confidence_adjustment ≤ 1/5 := by
  simp only [validate_percentage]
  repeat' split
  all_goals exact mkValidationResult_adj_range _ _ _

theorem validate_area_adj_range (v : PyVal) (fp : String) :
    -(1/5) ≤ (validate_area v fp).confidence_adjustment ∧
    (validate_area v fp).confidence_adjustment ≤ 1/5 := by
  simp only [validate_area]
  repeat' split
  all_goals exact mkValidationResult_adj_range _ _ _

theorem validate_boolean_adj_range (v : PyVal) (fp : String) :
    -(1/5) ≤ (validate_boolean v fp).confidence_adjustment ∧
    (validate_boolean v fp).confidence_adjustment ≤ 1/5 := by
  simp only [validate_boolean]
  repeat' split
  all_goals exact mkValidationResult_adj_range _ _ _

theorem validate_address_adj_range (v : PyVal) (fp : String) :
    -(1/5) ≤ (validate_address v fp).confidence_adjustment ∧
    (validate_address v fp).confidence_adjustment ≤ 1/5 := by
  simp only [validate_address]
  repeat' split
  all_goals exact mkValidationResult_adj_range _ _ _

theorem validate_text_adj_range (v : PyVal) (fp : String) :
    -(1/5) ≤ (validate_text v fp).confidence_adjustment ∧
    (validate_text v fp).confidence_adjustment ≤ 1/5 := by
  simp only [validate_text]
  repeat' split
  all_goals exact mkValidationResult_adj_range _ _ _

theorem validatorFor_adj_range (ft : String) (v : PyVal) (fp : String) :
    -(1/5) ≤ (validatorFor ft v fp).confidence_adjustment ∧
    (validatorFor ft v fp).confidence_adjustment ≤ 1/5 := by
  unfold validatorFor
  repeat' split
  · exact validate_date_adj_range v fp
  · exact validate_currency_adj_range v fp
  · exact validate_number_adj_range v fp
  · exact validate_percentage_adj_range v fp
  · exact validate_area_adj_range v fp
  · exact validate_boolean_adj_range v fp
  · exact validate_address_adj_range v fp
  · exact validate_text_adj_range v fp

/-- C1 amended: the per-type adjustment is clamped to [−0.2, 0.2] by the
`ValidationResult` constructor, but the −0.1 consistency adjustment is applied
after that clamp without re-clamping, so the final `confidence_adjustment` of
`validate_and_normalize` lies in [−0.3, 0.2] (and −0.3 is attained, see the
counterexample). -/
theorem validate_adjustment_bounds (fp : String) (v : PyVal) (ft : String)
    (sib : Option (List (String × PyVal))) :
    -(3/10) ≤ (validate_and_normalize fp v ft sib).confidence_adjustment ∧
    (validate_and_normalize fp v ft sib).confidence_adjustment ≤ 1/5 := by
  have hr := validatorFor_adj_range ft v fp
  simp only [validate_and_normalize]
  split
  · rw [show (mkValidationResult PyVal.none [] 0).confidence_adjustment = 0 from by decide]
    norm_num
  · cases sib with
    | none => exact ⟨by linarith [hr.1], hr.2⟩
    | some ext =>
      simp only []
      split
      · split
        · exact ⟨by linarith [hr.1], by linarith [hr.2]⟩
        · exact ⟨by linarith [hr.1], hr.2⟩
      · exact ⟨by linarith [hr.1], hr.2⟩

/-! ### Association-list lemmas for the merge fold -/

theorem alookup_aset_self {α : Type} (l : List (String × α)) (k : String) (v : α) :
    alookup (aset l k v) k = some v := by
  induction l with
  | nil => simp [aset, alookup, List.find?]
  | cons p t ih =>
    unfold aset
    split
    · rename_i h
      simp [alookup, List.find?]
    · rename_i h
      simp only [alookup, List.find?]
      rw [show (decide (p.1 = k)) = false from by simpa using h]
      exact ih

theorem alookup_aset_ne {α : Type} (l : List (String × α)) (k k2 : String) (v : α)
    (h : k2 ≠ k) : alookup (aset l k v) k2 = alookup l k2 := by
  induction l with
  | nil =>
    simp only [aset, alookup, List.find?]
    rw [show (decide (k = k2)) = false from by
      simp only [decide_eq_false_iff_not]
      exact fun hc => h hc.symm]
  | cons p t ih =>
    unfold aset
    split
    · rename_i hk
      simp only [alookup, List.find?]
      rw [show (decide ((k, v).1 = k2)) = false from by simpa using fun hc => h hc.symm]
      rw [show (decide (p.1 = k2)) = false from by
        simp only [decide_eq_false_iff_not]
        rw [hk]
        exact fun hc => h hc.symm]
    · simp only [alookup, List.find?]
      cases hd : decide (p.1 = k2) with
      | true => rfl
      | false => exact ih

theorem alookup_append_ne {α : Type} (l : List (String × α)) (k k2 : String) (v : α)
    (h : k ≠ k2) : alookup (l ++ [(k, v)]) k2 = alookup l k2 := by
  induction l with
  | nil =>
    simp only [List.nil_append, alookup, List.find?]
    rw [show (decide ((k, v).1 = k2)) = false from by
      simp only [decide_eq_false_iff_not]
      exact fun hc => h hc]
  | cons p t ih =>
    simp only [List.cons_append, alookup, List.find?]
    cases hd : decide (p.1 = k2) with
    | true => rfl
    | false => exact ih

theorem alookup_append_self {α : Type} (l : List (String × α)) (k : String) (v : α)
    (h : alookup l k = Option.none) : alookup (l ++ [(k, v)]) k = some v := by
  induction l with
  | nil => simp [alookup, List.find?]
  | cons p t ih =>
    simp only [alookup, List.find?] at h
    simp only [List.cons_append, alookup, List.find?]
    cases hd : decide (p.1 = k) with
    | true =>
      rw [hd] at h
      exact absurd h (by simp)
    | false =>
      rw [hd] at h
      exact ih h

/-- Lookups at a key different from the merged field are untouched by one
merge step. -/
theorem mergeStep_lookup_ne (focused : ExtractionResult)
    (st0 : ExtractionResult × List String × List (String × Improvement))
    (g f : String) (hfg : f ≠ g) :
    alookup (mergeStep focused st0 g).1.extractions f = alookup st0.1.extractions f ∧
    alookup (mergeStep focused st0 g).1.reasoning f = alookup st0.1.reasoning f ∧
    alookup (mergeStep focused st0 g).1.citations f = alookup st0.1.citations f ∧
    alookup (mergeStep focused st0 g).1.confidence f = alookup st0.1.confidence f ∧
    alookup (mergeStep focused st0 g).2.2 f = alookup st0.2.2 f := by
  simp only [mergeStep]
  split
  · exact ⟨alookup_aset_ne _ _ _ _ hfg, alookup_aset_ne _ _ _ _ hfg,
      alookup_aset_ne _ _ _ _ hfg, alookup_aset_ne _ _ _ _ hfg,
      alookup_append_ne _ _ _ _ (fun hc => hfg hc.symm)⟩
  · exact ⟨rfl, rfl, rfl, rfl, rfl⟩

/-- One merge step at its own field: the adopt / keep dichotomy on the
confidence gain. -/
theorem mergeStep_lookup_self (focused : ExtractionResult)
    (st0 : ExtractionResult × List String × List (String × Improvement))
    (f : String) (himp : alookup st0.2.2 f = Option.none) :
    ((alookup focused.confidence f).getD 0 - (alookup st0.1.confidence f).getD 0 ≥ 1/10 →
      alookup (mergeStep focused st0 f).1.extractions f = some (agetV focused.extractions f) ∧
      alookup (mergeStep focused st0 f).1.reasoning f = some (agetV focused.reasoning f) ∧
      alookup (mergeStep focused st0 f).1.citations f = some (agetV focused.citations f) ∧
      alookup (mergeStep focused st0 f).1.confidence f =
        some ((alookup focused.confidence f).getD 0) ∧
      alookup (mergeStep focused st0 f).2.2 f =
        some ⟨(alookup st0.1.confidence f).getD 0, (alookup focused.confidence f).getD 0,
          (alookup focused.confidence f).getD 0 - (alookup st0.1.confidence f).getD 0⟩) ∧
    (¬ ((alookup focused.confidence f).getD 0 - (alookup st0.1.confidence f).getD 0 ≥ 1/10) →
      mergeStep focused st0 f = st0) := by
  constructor
  · intro hgain
    simp only [mergeStep]
    split
    · exact ⟨alookup_aset_self _ _ _, alookup_aset_self _ _ _, alookup_aset_self _ _ _,
        alookup_aset_self _ _ _, alookup_append_self _ _ _ himp⟩
    · rename_i hc
      exact absurd hgain hc
  · intro hgain
    simp only [mergeStep]
    split
    · rename_i hc
      exact absurd hc hgain
    · rfl

/-- Fields outside the refined list are untouched by the whole merge fold. -/
theorem mergeFold_untouched (focused : ExtractionResult) (fields : List String)
    (st0 : ExtractionResult × List String × List (String × Improvement))
    (f : String) (hf : f ∉ fields) :
    alookup (fields.foldl (mergeStep focused) st0).1.extractions f =
      alookup st0.1.extractions f ∧
    alookup (fields.foldl (mergeStep focused) st0).1.reasoning f =
      alookup st0.1.reasoning f ∧
    alookup (fields.foldl (mergeStep focused) st0).1.citations f =
      alookup st0.1.citations f ∧
    alookup (fields.foldl (mergeStep focused) st0).1.confidence f =
      alookup st0.1.confidence f ∧
    alookup (fields.foldl (mergeStep focused) st0).2.2 f = alookup st0.2.2 f := by
  induction fields generalizing st0 with
  | nil => exact ⟨rfl, rfl, rfl, rfl, rfl⟩
  | cons g rest ih =>
    have hfg : f ≠ g := fun hc => hf (hc ▸ List.mem_cons_self g rest)
    have hfr : f ∉ rest := fun hc => hf (List.mem_cons_of_mem g hc)
    have hstep := mergeStep_lookup_ne focused st0 g f hfg
    have hrest := ih (mergeStep focused st0 g) hfr
    simp only [List.foldl_cons]
    exact ⟨hrest.1.trans hstep.1, hrest.2.1.trans hstep.2.1,
      hrest.2.2.1.trans hstep.2.2.1, hrest.2.2.2.1.trans hstep.2.2.2.1,
      hrest.2.2.2.2.trans hstep.2.2.2.2⟩

/-- The merge fold at a field of the (duplicate-free) refined list: adopt the
focused entries and record an improvement exactly when the gain reaches 0.10,
otherwise keep the accumulated entries and record nothing. -/
theorem mergeFold_at (focused : ExtractionResult) (fields : List String)
    (st0 : ExtractionResult × List String × List (String × Improvement))
    (f : String) (hnd : fields.Nodup) (hf : f ∈ fields)
    (himp : alookup st0.2.2 f = Option.none) :
    ((alookup focused.confidence f).getD 0 - (alookup st0.1.confidence f).getD 0 ≥ 1/10 →
      alookup (fields.foldl (mergeStep focused) st0).1.extractions f =
        some (agetV focused.extractions f) ∧
      alookup (fields.foldl (mergeStep focused) st0).1.reasoning f =
        some (agetV focused.reasoning f) ∧
      alookup (fields.foldl (mergeStep focused) st0).1.citations f =
        some (agetV focused.citations f) ∧
      alookup (fields.foldl (mergeStep focused) st0).1.confidence f =
        some ((alookup focused.confidence f).getD 0) ∧
      alookup (fields.foldl (mergeStep focused) st0).2.2 f =
        some ⟨(alookup st0.1.confidence f).getD 0, (alookup focused.confidence f).getD 0,
          (alookup focused.confidence f).getD 0 - (alookup st0.1.confidence f).getD 0⟩) ∧
    (¬ ((alookup focused.confidence f).getD 0 - (alookup st0.1.confidence f).getD 0 ≥ 1/10) →
      alookup (fields.foldl (mergeStep focused) st0).1.extractions f =
        alookup st0.1.extractions f ∧
      alookup (fields.foldl (mergeStep focused) st0).1.reasoning f =
        alookup st0.1.reasoning f ∧
      alookup (fields.foldl (mergeStep focused) st0).1.citations f =
        alookup st0.1.citations f ∧
      alookup (fields.foldl (mergeStep focused) st0).1.confidence f =
        alookup st0.1.confidence f ∧
      alookup (fields.foldl (mergeStep focused) st0).2.2 f = Option.none) := by
  induction fields generalizing st0 with
  | nil => exact absurd hf (List.not_mem_nil f)
  | cons g rest ih =>
    rw [List.nodup_cons] at hnd
    by_cases hfg : f = g
    · subst hfg
      have hfr : f ∉ rest := hnd.1
      have hrest := mergeFold_untouched focused rest (mergeStep focused st0 f) f hfr
      have hself := mergeStep_lookup_self focused st0 f himp
      simp only [List.foldl_cons]
      constructor
      · intro hgain
        have h5 := hself.1 hgain
        exact ⟨hrest.1.trans h5.1, hrest.2.1.trans h5.2.1, hrest.2.2.1.trans h5.2.2.1,
          hrest.2.2.2.1.trans h5.2.2.2.1, hrest.2.2.2.2.trans h5.2.2.2.2⟩
      · intro hgain
        have hkeep := hself.2 hgain
        rw [hkeep] at hrest ⊢
        exact ⟨hrest.1, hrest.2.1, hrest.2.2.1, hrest.2.2.2.1, hrest.2.2.2.2.trans himp⟩
    · have hfr : f ∈ rest := by
        rcases List.mem_cons.mp hf with h | h
        · exact absurd h hfg
        · exact h
      have hstep := mergeStep_lookup_ne focused st0 g f hfg
      have himp1 : alookup (mergeStep focused st0 g).2.2 f = Option.none :=
        hstep.2.2.2.2.trans himp
      have hrest := ih (mergeStep focused st0 g) hnd.2 hfr himp1
      rw [hstep.2.2.2.1] at hrest
      simp only [List.foldl_cons]
      constructor
      · intro hgain
        exact hrest.1 hgain
      · intro hgain
        have h5 := hrest.2 hgain
        exact ⟨h5.1.trans hstep.1, h5.2.1.trans hstep.2.1, h5.2.2.1.trans hstep.2.2.1,
          h5.2.2.2.1, h5.2.2.2.2⟩

/-- C3: In `_merge_extraction_results`, for each field of a duplicate-free
refined list the merged result adopts the focused value, reasoning, citation
and confidence and records an `{initial_confidence, focused_confidence,
improvement}` entry exactly when focused minus initial confidence is at least
0.10; otherwise the initial entries stay untouched and no improvement is
recorded. -/
theorem merge_refinement_gating (initial focused : ExtractionResult)
    (fields : List String) (f : String) (hnd : fields.Nodup) (hf : f ∈ fields) :
    ((alookup focused.confidence f).getD 0 - (alookup initial.confidence f).getD 0 ≥ 1/10 →
      alookup (merge_extraction_results initial focused fields).extractions f =
        some (agetV focused.extractions f) ∧
      alookup (merge_extraction_results initial focused fields).reasoning f =
        some (agetV focused.reasoning f) ∧
      alookup (merge_extraction_results initial focused fields).citations f =
        some (agetV focused.citations f) ∧
      alookup (merge_extraction_results initial focused fields).confidence f =
        some ((alookup focused.confidence f).getD 0) ∧
      alookup
          ((merge_extraction_results initial focused fields).metadata.refinement_improvements.getD
            []) f =
        some ⟨(alookup initial.confidence f).getD 0, (alookup focused.confidence f).getD 0,
          (alookup focused.confidence f).getD 0 - (alookup initial.confidence f).getD 0⟩) ∧
    (¬ ((alookup focused.confidence f).getD 0 - (alookup initial.confidence f).getD 0 ≥ 1/10) →
      alookup (merge_extraction_results initial focused fields).extractions f =
        alookup initial.extractions f ∧
      alookup (merge_extraction_results initial focused fields).reasoning f =
        alookup initial.reasoning f ∧
      alookup (merge_extraction_results initial focused fields).citations f =
        alookup initial.citations f ∧
      alookup (merge_extraction_results initial focused fields).confidence f =
        alookup initial.confidence f ∧
      alookup
          ((merge_extraction_results initial focused fields).metadata.refinement_improvements.getD
            []) f =
        Option.none) := by
  exact mergeFold_at focused fields (initial, [], []) f hnd hf rfl

/-- A two-field pass-1 result for the gating example (confidence 0.65 on the
candidate field). -/
def mgInitial : ExtractionResult :=
  ⟨[("rent.base_rent_annual", PyVal.str "100000"), ("term.months", PyVal.int 60)],
   [("rent.base_rent_annual", PyVal.str "initial reasoning")],
   [("rent.base_rent_annual", PyVal.str "p. 3")],
   [("rent.base_rent_annual", 13/20), ("term.months", 9/10)],
   ⟨0, false, Option.none, Option.none, Option.none, Option.none, Option.none, Option.none⟩⟩

/-- A focused pass with confidence 0.74 (gain 0.09, below the gate). -/
def mgFocusedKeep : ExtractionResult :=
  ⟨[("rent.base_rent_annual", PyVal.str "120000")],
   [("rent.base_rent_annual", PyVal.str "focused reasoning")],
   [("rent.base_rent_annual", PyVal.str "p. 7")],
   [("rent.base_rent_annual", 37/50)],
   ⟨0, false, Option.none, Option.none, Option.none, Option.none, Option.none, Option.none⟩⟩

/-- A focused pass with confidence 0.76 (gain 0.11, above the gate). -/
def mgFocusedSwap : ExtractionResult :=
  ⟨[("rent.base_rent_annual", PyVal.str "120000")],
   [("rent.base_rent_annual", PyVal.str "focused reasoning")],
   [("rent.base_rent_annual", PyVal.str "p. 7")],
   [("rent.base_rent_annual", 19/25)],
   ⟨0, false, Option.none, Option.none, Option.none, Option.none, Option.none, Option.none⟩⟩

/-- Witness for C3: 0.65 to 0.74 keeps the initial entries with no recorded
improvement; 0.65 to 0.76 adopts the focused entries and records the
improvement. -/
theorem merge_refinement_gating_witness :
    (alookup (merge_extraction_results mgInitial mgFocusedKeep
        ["rent.base_rent_annual"]).extractions "rent.base_rent_annual" =
      alookup mgInitial.extractions "rent.base_rent_annual" ∧
     alookup ((merge_extraction_results mgInitial mgFocusedKeep
        ["rent.base_rent_annual"]).metadata.refinement_improvements.getD [])
        "rent.base_rent_annual" = Option.none) ∧
    (alookup (merge_extraction_results mgInitial mgFocusedSwap
        ["rent.base_rent_annual"]).extractions "rent.base_rent_annual" =
      some (agetV mgFocusedSwap.extractions "rent.base_rent_annual") ∧
     alookup ((merge_extraction_results mgInitial mgFocusedSwap
        ["rent.base_rent_annual"]).metadata.refinement_improvements.getD [])
        "rent.base_rent_annual" =
      some ⟨(alookup mgInitial.confidence "rent.base_rent_annual").getD 0,
        (alookup mgFocusedSwap.confidence "rent.base_rent_annual").getD 0,
        (alookup mgFocusedSwap.confidence "rent.base_rent_annual").getD 0 -
          (alookup mgInitial.confidence "rent.base_rent_annual").getD 0⟩) := by
  constructor
  · have h := (merge_refinement_gating mgInitial mgFocusedKeep ["rent.base_rent_annual"]
      "rent.base_rent_annual" (by decide) (by decide)).2 (by decide)
    exact ⟨h.1, h.2.2.2.2⟩
  · have h := (merge_refinement_gating mgInitial mgFocusedSwap ["rent.base_rent_annual"]
      "rent.base_rent_annual" (by decide) (by decide)).1 (by decide)
    exact ⟨h.1, h.2.2.2.2⟩

/-- The candidate list inherits duplicate-freedom from the confidence keys. -/
theorem lowConfidenceFields_nodup (initial : ExtractionResult) (thr : ℚ)
    (h : (initial.confidence.map Prod.fst).Nodup) :
    (lowConfidenceFields initial thr).Nodup :=
  List.Nodup.sublist ((List.filter_sublist _).map Prod.fst) h

/-- Membership in the low-confidence candidate list. -/
theorem mem_lowConfidenceFields (initial : ExtractionResult) (thr : ℚ) (f : String) :
    f ∈ lowConfidenceFields initial thr ↔
      ∃ c, (f, c) ∈ initial.confidence ∧ c < thr ∧
        agetV initial.extractions f ≠ PyVal.none := by
  unfold lowConfidenceFields
  simp only [List.mem_map, List.mem_filter, decide_eq_true_eq]
  constructor
  · rintro ⟨⟨g, c⟩, ⟨hm, hc, he⟩, hfst⟩
    cases hfst
    exact ⟨c, hm, hc, he⟩
  · rintro ⟨c, hm, hc, he⟩
    exact ⟨(f, c), ⟨hm, hc, he⟩, rfl⟩

/-- The merged improvements map holds a key exactly for the refined fields
whose confidence gain met the gate. -/
theorem merge_improvements_isSome (initial focused : ExtractionResult)
    (fields : List String) (f : String) (hnd : fields.Nodup) :
    (alookup
        ((merge_extraction_results initial focused fields).metadata.refinement_improvements.getD
          []) f).isSome ↔
      (f ∈ fields ∧
        (alookup focused.confidence f).getD 0 - (alookup initial.confidence f).getD 0 ≥ 1/10) := by
  by_cases hin : f ∈ fields
  · have h := mergeFold_at focused fields (initial, [], []) f hnd hin rfl
    by_cases hg : (alookup focused.confidence f).getD 0 -
        (alookup initial.confidence f).getD 0 ≥ 1/10
    · have hval : alookup
          ((merge_extraction_results initial focused fields).metadata.refinement_improvements.getD
            []) f =
          some ⟨(alookup initial.confidence f).getD 0, (alookup focused.confidence f).getD 0,
            (alookup focused.confidence f).getD 0 - (alookup initial.confidence f).getD 0⟩ :=
        (h.1 hg).2.2.2.2
      rw [hval]
      exact iff_of_true rfl ⟨hin, hg⟩
    · have hval : alookup
          ((merge_extraction_results initial focused fields).metadata.refinement_improvements.getD
            []) f = Option.none :=
        (h.2 hg).2.2.2.2
      rw [hval]
      exact iff_of_false (by simp) (fun hc => hg hc.2)
  · have h := mergeFold_untouched focused fields (initial, [], []) f hin
    have hval : alookup
        ((merge_extraction_results initial focused fields).metadata.refinement_improvements.getD
          []) f = Option.none :=
      h.2.2.2.2
    rw [hval]
    exact iff_of_false (by simp) (fun hc => hin hc.1)

/-- C4: `extract_lease_data_with_refinement` computes the candidate set as the
fields whose pass-1 confidence is strictly below the threshold and whose
extracted value is non-null; an empty set returns pass 1 unchanged tagged
`multi_pass = false` with `refined_fields = []`; otherwise `multi_pass = true`,
`refined_fields` records the whole candidate set, and
`refinement_improvements` holds exactly the fields whose gain met the 0.10
gate. -/
theorem extract_with_refinement_spec (initial : ExtractionResult)
    (focusedOf : List String → ExtractionResult) (thr : ℚ) (f : String)
    (hkeys : (initial.confidence.map Prod.fst).Nodup) :
    (f ∈ lowConfidenceFields initial thr ↔
      ∃ c, (f, c) ∈ initial.confidence ∧ c < thr ∧
        agetV initial.extractions f ≠ PyVal.none) ∧
    (lowConfidenceFields initial thr = [] →
      extract_lease_data_with_refinement initial focusedOf thr =
        ⟨initial.extractions, initial.reasoning, initial.citations, initial.confidence,
         ⟨initial.metadata.total_cost, initial.metadata.total_cost_present,
          some false, some [],
          initial.metadata.updated_from_refinement, initial.metadata.refinement_improvements,
          initial.metadata.initial_cost, initial.metadata.refinement_cost⟩⟩) ∧
    (lowConfidenceFields initial thr ≠ [] →
      (extract_lease_data_with_refinement initial focusedOf thr).metadata.multi_pass =
        some true ∧
      (extract_lease_data_with_refinement initial focusedOf thr).metadata.refined_fields =
        some (lowConfidenceFields initial thr) ∧
      ((alookup
          ((extract_lease_data_with_refinement initial
              focusedOf thr).metadata.refinement_improvements.getD []) f).isSome ↔
        (f ∈ lowConfidenceFields initial thr ∧
          (alookup (focusedOf (lowConfidenceFields initial thr)).confidence f).getD 0 -
            (alookup initial.confidence f).getD 0 ≥ 1/10))) := by
  refine ⟨mem_lowConfidenceFields initial thr f, ?_, ?_⟩
  · intro h
    simp only [extract_lease_data_with_refinement]
    rw [if_pos h]
  · intro hne
    simp only [extract_lease_data_with_refinement]
    rw [if_neg hne]
    exact ⟨rfl, rfl,
      merge_improvements_isSome initial (focusedOf (lowConfidenceFields initial thr))
        (lowConfidenceFields initial thr) f (lowConfidenceFields_nodup initial thr hkeys)⟩

/-- Witness for C4: on the two-field example, threshold 0.5 gives an empty
candidate set and the tagged pass-1 result; threshold 0.7 refines the 0.65
field, and the 0.76 focused confidence lands it in the improvements map. -/
theorem extract_with_refinement_spec_witness :
    (mgInitial.confidence.map Prod.fst).Nodup ∧
    extract_lease_data_with_refinement mgInitial (fun _ => mgFocusedSwap) (1/2) =
      ⟨mgInitial.extractions, mgInitial.reasoning, mgInitial.citations, mgInitial.confidence,
       ⟨mgInitial.metadata.total_cost, mgInitial.metadata.total_cost_present,
        some false, some [],
        mgInitial.metadata.updated_from_refinement, mgInitial.metadata.refinement_improvements,
        mgInitial.metadata.initial_cost, mgInitial.metadata.refinement_cost⟩⟩ ∧
    (extract_lease_data_with_refinement mgInitial (fun _ => mgFocusedSwap)
        (7/10)).metadata.multi_pass = some true ∧
    (alookup ((extract_lease_data_with_refinement mgInitial (fun _ => mgFocusedSwap)
        (7/10)).metadata.refinement_improvements.getD []) "rent.base_rent_annual").isSome := by
  refine ⟨by decide, ?_, ?_, ?_⟩
  · exact (extract_with_refinement_spec mgInitial (fun _ => mgFocusedSwap) (1/2)
      "rent.base_rent_annual" (by decide)).2.1 (by decide)
  · exact ((extract_with_refinement_spec mgInitial (fun _ => mgFocusedSwap) (7/10)
      "rent.base_rent_annual" (by decide)).2.2 (by decide)).1
  · exact (((extract_with_refinement_spec mgInitial (fun _ => mgFocusedSwap) (7/10)
      "rent.base_rent_annual" (by decide)).2.2 (by decide)).2.2).mpr ⟨by decide, by decide⟩

/-! ### Character classes of printed floats, and normalizer no-ops -/

theorem mk_data_eq (s : String) : String.mk s.data = s := rfl

theorem digit_ne_of {c x : Char} (h : isDigitCh c = true) (hx : isDigitCh x = false) : c ≠ x := by
  intro he
  rw [he, hx] at h
  cases h

theorem digit_lowerCh {c : Char} (h : isDigitCh c = true) : lowerCh c = c := by
  unfold isDigitCh at h
  rw [Bool.and_eq_true, decide_eq_true_eq, decide_eq_true_eq] at h
  unfold lowerCh
  rw [if_neg (by omega)]

theorem mem_floatStr_class {q : ℚ} {c : Char} (h : c ∈ (floatStr q).data) :
    isDigitCh c = true ∨ c = '.' ∨ c = '-' := by
  simp only [floatStr, data_mk] at h
  rcases List.mem_append.mp h with h1 | h1
  · rcases List.mem_append.mp h1 with h2 | h2
    · split at h2
      · rcases List.mem_singleton.mp h2 with rfl
        exact Or.inr (Or.inr rfl)
      · exact absurd h2 (List.not_mem_nil c)
    · exact Or.inl (mem_natChars_isDigit h2)
  · rcases List.mem_cons.mp h1 with rfl | h2
    · exact Or.inr (Or.inl rfl)
    · exact Or.inl (mem_natCharsPad_isDigit h2)

theorem floatStr_not_space {q : ℚ} {c : Char} (h : c ∈ (floatStr q).data) :
    isSpaceCh c = false := by
  rcases mem_floatStr_class h with hD | rfl | rfl
  · exact isDigitCh_not_space hD
  · decide
  · decide

theorem pyStrip_floatStr (q : ℚ) : pyStrip (floatStr q) = floatStr q := by
  unfold pyStrip
  rw [pyTrimChars_eq_self (fun c hc => floatStr_not_space hc)]

theorem stripChars_eq_self {bad : List Char} {s : String}
    (h : ∀ c ∈ s.data, c ∉ bad) : stripChars bad s = s := by
  unfold stripChars
  have hf : s.data.filter (fun c => !(bad.contains c)) = s.data :=
    List.filter_eq_self.mpr (fun c hc => by simpa using h c hc)
  rw [hf]

/-! ### Shape of strings accepted by the strict ISO regex -/

theorem readDigits_inv {n : ℕ} {cs : List Char} {v : ℕ} {rest : List Char}
    (h : readDigits n cs = some (v, rest)) :
    rest = cs.drop n ∧ ∀ c ∈ cs.take n, isDigitCh c = true := by
  unfold readDigits at h
  split at h
  · rename_i hc
    have h2 := Option.some_injective _ h
    rw [Prod.ext_iff] at h2
    exact ⟨h2.2.symm, fun c hc2 => List.all_eq_true.mp hc.2 c hc2⟩
  · exact absurd h (by simp)

theorem readLit_inv {c : Char} {cs r : List Char} (h : readLit c cs = some r) : cs = c :: r := by
  cases cs with
  | nil => exact absurd h (by simp [readLit])
  | cons x t =>
    simp only [readLit] at h
    split at h
    · rename_i hx
      rw [hx, Option.some_injective _ h]
    · exact absurd h (by simp)

theorem parseIsoStrict_chars {cs : List Char} {ymd : ℕ × ℕ × ℕ}
    (h : parseIsoStrict cs = some ymd) : ∀ c ∈ cs, isDigitCh c = true ∨ c = '-' := by
  unfold parseIsoStrict at h
  cases h1 : readDigits 4 cs with
  | none => rw [h1] at h; exact absurd h (by simp)
  | some p1 =>
    rw [h1] at h
    obtain ⟨v1, r1⟩ := p1
    obtain ⟨hr1, hd1⟩ := readDigits_inv h1
    simp only [Option.some_bind] at h
    cases h2 : readLit '-' r1 with
    | none => rw [h2] at h; exact absurd h (by simp)
    | some r2 =>
      rw [h2] at h
      have hc2 := readLit_inv h2
      simp only [Option.some_bind] at h
      cases h3 : readDigits 2 r2 with
      | none => rw [h3] at h; exact absurd h (by simp)
      | some p3 =>
        rw [h3] at h
        obtain ⟨v3, r3⟩ := p3
        obtain ⟨hr3, hd3⟩ := readDigits_inv h3
        simp only [Option.some_bind] at h
        cases h4 : readLit '-' r3 with
        | none => rw [h4] at h; exact absurd h (by simp)
        | some r4 =>
          rw [h4] at h
          have hc4 := readLit_inv h4
          simp only [Option.some_bind] at h
          cases h5 : readDigits 2 r4 with
          | none => rw [h5] at h; exact absurd h (by simp)
          | some p5 =>
            rw [h5] at h
            obtain ⟨v5, r5⟩ := p5
            obtain ⟨hr5, hd5⟩ := readDigits_inv h5
            simp only [Option.some_bind] at h
            have hr5nil : r5 = [] := by
              by_contra hne
              rw [if_neg hne] at h
              exact absurd h (by simp)
            intro c hc
            have hcs : cs = cs.take 4 ++ r1 := by rw [hr1]; exact (List.take_append_drop 4 cs).symm
            rw [hcs] at hc
            rcases List.mem_append.mp hc with hm | hm
            · exact Or.inl (hd1 c hm)
            · rw [hc2] at hm
              rcases List.mem_cons.mp hm with rfl | hm
              · exact Or.inr rfl
              · have hr2s : r2 = r2.take 2 ++ r3 := by
                  rw [hr3]; exact (List.take_append_drop 2 r2).symm
                rw [hr2s] at hm
                rcases List.mem_append.mp hm with hm | hm
                · exact Or.inl (hd3 c hm)
                · rw [hc4] at hm
                  rcases List.mem_cons.mp hm with rfl | hm
                  · exact Or.inr rfl
                  · have hr4s : r4 = r4.take 2 ++ r5 := by
                      rw [hr5]; exact (List.take_append_drop 2 r4).symm
                    rw [hr4s] at hm
                    rcases List.mem_append.mp hm with hm | hm
                    · exact Or.inl (hd5 c hm)
                    · rw [hr5nil] at hm
                      exact absurd hm (List.not_mem_nil c)

theorem mkDate_of_valid {dt : PyDate} (h : ValidDate dt) :
    mkDate dt.year dt.month dt.day = some dt := by
  have h2 : 1 ≤ dt.year ∧ dt.year ≤ 9999 ∧ 1 ≤ dt.month ∧ dt.month ≤ 12 ∧ 1 ≤ dt.day ∧
      dt.day ≤ daysInMonth dt.year dt.month := h
  unfold mkDate
  rw [if_pos h2]

/-! ### Idempotence of the per-type normalizers on their canonical outputs -/

theorem clamp_zero : max (-(1/5 : ℚ)) (min (1/5) 0) = 0 := by norm_num

theorem validate_date_iso_clean {s : String} {ymd : ℕ × ℕ × ℕ} {d0 : PyDate} (fp : String)
    (hiso : parseIsoStrict s.data = some ymd) (hmk : mkDate ymd.1 ymd.2.1 ymd.2.2 = some d0) :
    validate_date (.str s) fp = ⟨.str s, [], 0⟩ := by
  have hnos : ∀ c ∈ s.data, isSpaceCh c = false := by
    intro c hc
    rcases parseIsoStrict_chars hiso c hc with hD | rfl
    · exact isDigitCh_not_space hD
    · decide
  have hstrip : pyStrip s = s := by
    unfold pyStrip
    rw [pyTrimChars_eq_self hnos]
  simp only [validate_date, pyStr, hstrip, hiso, hmk]
  unfold mkValidationResult
  rw [clamp_zero]

theorem validate_date_formatIso (fp : String) {dt : PyDate} (hv : ValidDate dt) :
    validate_date (.str (formatIso dt)) fp = ⟨.str (formatIso dt), [], 0⟩ :=
  validate_date_iso_clean fp (parseIsoStrict_formatIso hv) (mkDate_of_valid hv)

theorem validate_date_cases (v : PyVal) (fp : String) :
    (∃ ymd d0, parseIsoStrict (pyStrip (pyStr v)).data = some ymd ∧
      mkDate ymd.1 ymd.2.1 ymd.2.2 = some d0 ∧
      validate_date v fp = ⟨.str (pyStrip (pyStr v)), [], 0⟩) ∨
    (∃ dt, tryFormats (pyStrip (pyStr v)).data = some dt ∧
      validate_date v fp = ⟨.str (formatIso dt),
        ["Date format normalized from '" ++ pyStrip (pyStr v) ++ "' to '" ++ formatIso dt ++
          "'"], 0⟩) ∨
    (validate_date v fp).confidence_adjustment = -(1/5) := by
  cases hiso : parseIsoStrict (pyStrip (pyStr v)).data with
  | some ymd =>
    cases hmk : mkDate ymd.1 ymd.2.1 ymd.2.2 with
    | some d0 =>
      left
      refine ⟨ymd, d0, rfl, hmk, ?_⟩
      simp only [validate_date, hiso, hmk]
      unfold mkValidationResult
      rw [clamp_zero]
    | none =>
      right; right
      simp only [validate_date, hiso, hmk]
      unfold mkValidationResult
      norm_num
  | none =>
    cases htf : tryFormats (pyStrip (pyStr v)).data with
    | some dt =>
      right; left
      refine ⟨dt, rfl, ?_⟩
      simp only [validate_date, hiso, htf]
      unfold mkValidationResult
      rw [clamp_zero]
    | none =>
      right; right
      simp only [validate_date, hiso, htf]
      unfold mkValidationResult
      norm_num

theorem validate_date_idem (v : PyVal) (fp : String)
    (h : (validate_date v fp).confidence_adjustment = 0) :
    validate_date (validate_date v fp).value fp = ⟨(validate_date v fp).value, [], 0⟩ := by
  rcases validate_date_cases v fp with ⟨ymd, d0, hiso, hmk, hr⟩ | ⟨dt, htf, hr⟩ | hfail
  · rw [hr]
    exact validate_date_iso_clean fp hiso hmk
  · rw [hr]
    exact validate_date_formatIso fp (tryFormats_valid htf)
  · rw [hfail] at h
    norm_num at h

theorem pyEq_float_self (q : ℚ) : pyEq (.float q) (.float q) = true := by
  simp [pyEq, pyNumVal]

theorem validate_number_cases (v : PyVal) (fp : String) :
    (∃ num, parseFloat (pyStrip (stripChars [','] (pyStr v))) = some num ∧
      validate_number v fp = ⟨.float num,
        (if strIn "month" (pyLower fp) ∧ (num < 0 ∨ num > 1200) then
          ["Unusual month value: " ++ floatStr num] else []) ++
        (if ¬ (pyEq v (.float num) = true) then
          ["Number normalized from '" ++ pyStr v ++ "' to '" ++ floatStr num ++ "'"]
         else []), 0⟩) ∨
    (validate_number v fp).confidence_adjustment = -(1/5) := by
  cases hp : parseFloat (pyStrip (stripChars [','] (pyStr v))) with
  | some num =>
    left
    refine ⟨num, rfl, ?_⟩
    simp only [validate_number, hp]
    unfold mkValidationResult
    rw [clamp_zero]
  | none =>
    right
    simp only [validate_number, hp]
    unfold mkValidationResult
    norm_num

theorem validate_number_float (fp : String) {num : ℚ} (hdec : IsDecimal num) :
    validate_number (.float num) fp = ⟨.float num,
      (if strIn "month" (pyLower fp) ∧ (num < 0 ∨ num > 1200) then
        ["Unusual month value: " ++ floatStr num] else []), 0⟩ := by
  have hclean : pyStrip (stripChars [','] (pyStr (.float num))) = floatStr num := by
    have hsc : stripChars [','] (pyStr (.float num)) = floatStr num := by
      show stripChars [','] (floatStr num) = floatStr num
      apply stripChars_eq_self
      intro c hc
      rcases mem_floatStr_class hc with hD | rfl | rfl
      · simpa using digit_ne_of hD (by decide)
      · decide
      · decide
    rw [hsc]
    exact pyStrip_floatStr num
  simp only [validate_number, hclean, parseFloat_floatStr hdec]
  rw [if_neg (not_not_intro (pyEq_float_self num))]
  unfold mkValidationResult
  rw [clamp_zero, List.append_nil]

theorem validate_number_idem (v : PyVal) (fp : String)
    (h : (validate_number v fp).confidence_adjustment = 0) :
    (validate_number (validate_number v fp).value fp).value = (validate_number v fp).value ∧
    (validate_number (validate_number v fp).value fp).confidence_adjustment = 0 ∧
    ∀ w ∈ (validate_number (validate_number v fp).value fp).warnings,
      w ∈ (validate_number v fp).warnings := by
  rcases validate_number_cases v fp with ⟨num, hp, hr⟩ | hfail
  · have hdec := parseFloat_isDecimal hp
    rw [hr]
    rw [show (⟨.float num, _, 0⟩ : ValidationResult).value = .float num from rfl]
    rw [validate_number_float fp hdec]
    refine ⟨rfl, rfl, ?_⟩
    intro w hw
    exact List.mem_append.mpr (Or.inl hw)
  · rw [hfail] at h
    norm_num at h

theorem readStrCI_none_head {p0 c : Char} {ps rest0 : List Char}
    (h : lowerCh c ≠ lowerCh p0) : readStrCI (p0 :: ps) (c :: rest0) = Option.none := by
  unfold readStrCI
  rw [if_neg h]

theorem areaClass_head {c : Char} (h : isDigitCh c = true ∨ c = '.' ∨ c = '-') :
    lowerCh c ≠ 's' ∧ lowerCh c ≠ 'r' ∧ lowerCh c ≠ 'u' ∧ isSpaceCh c = false := by
  rcases h with h | rfl | rfl
  · rw [digit_lowerCh h]
    exact ⟨digit_ne_of h (by decide), digit_ne_of h (by decide), digit_ne_of h (by decide),
      isDigitCh_not_space h⟩
  · exact ⟨by decide, by decide, by decide, by decide⟩
  · exact ⟨by decide, by decide, by decide, by decide⟩

theorem areaAltMatch_none {c : Char} {rest : List Char}
    (hs : lowerCh c ≠ 's') (hr : lowerCh c ≠ 'r') (hu : lowerCh c ≠ 'u') :
    areaAltMatch (c :: rest) = Option.none := by
  have hs2 : lowerCh c ≠ lowerCh 's' := by rw [show lowerCh 's' = 's' from by decide]; exact hs
  have hr2 : lowerCh c ≠ lowerCh 'r' := by rw [show lowerCh 'r' = 'r' from by decide]; exact hr
  have hu2 : lowerCh c ≠ lowerCh 'u' := by rw [show lowerCh 'u' = 'u' from by decide]; exact hu
  unfold areaAltMatch
  rw [readStrCI_none_head hs2, readStrCI_none_head hs2, readStrCI_none_head hs2,
    readStrCI_none_head hr2, readStrCI_none_head hu2]
  rfl

theorem areaSubGo_id {fuel : ℕ} {cs : List Char}
    (h : ∀ c ∈ cs, isDigitCh c = true ∨ c = '.' ∨ c = '-') : areaSubGo fuel cs = cs := by
  induction fuel generalizing cs with
  | zero => cases cs <;> rfl
  | succ fuel ih =>
    cases cs with
    | nil => rfl
    | cons c rest =>
      obtain ⟨h1, h2, h3, h4⟩ := areaClass_head (h c (List.mem_cons_self c rest))
      have hspan : (spanD isSpaceCh (c :: rest)).2 = c :: rest := by
        simp [spanD, h4]
      unfold areaSubGo
      rw [hspan, areaAltMatch_none h1 h2 h3]
      rw [ih (fun x hx => h x (List.mem_cons_of_mem c hx))]

theorem areaSub_floatStr (q : ℚ) : areaSub (floatStr q).data = (floatStr q).data :=
  areaSubGo_id (fun _ hc => mem_floatStr_class hc)

theorem validate_area_cases (v : PyVal) (fp : String) :
    (∃ area, parseFloat (pyStrip (stripChars [','] (String.mk (areaSub (pyStr v).data)))) =
        some area ∧
      validate_area v fp = ⟨.float area,
        (if area < 1 then ["Very small area: " ++ floatStr area ++ " SF"]
         else if area > 10000000 then ["Very large area: " ++ fixedFmt 0 true area ++ " SF"]
         else []) ++
        (if strIn "rentable" (pyLower fp) then
          (if area < 10 then ["Rentable area suspiciously small"] else [])
         else if strIn "usable" (pyLower fp) then
          (if area < 10 then ["Usable area suspiciously small"] else [])
         else []) ++
        (if pyStr v ≠ floatStr area then
          ["Area normalized from '" ++ pyStr v ++ "' to '" ++ floatStr area ++ "'"]
         else []), 0⟩) ∨
    (validate_area v fp).confidence_adjustment = -(1/5) := by
  cases hp : parseFloat (pyStrip (stripChars [','] (String.mk (areaSub (pyStr v).data)))) with
  | some area =>
    left
    refine ⟨area, rfl, ?_⟩
    simp only [validate_area, hp]
    unfold mkValidationResult
    rw [clamp_zero]
  | none =>
    right
    simp only [validate_area, hp]
    unfold mkValidationResult
    norm_num

theorem validate_area_float (fp : String) {area : ℚ} (hdec : IsDecimal area) :
    validate_area (.float area) fp = ⟨.float area,
      (if area < 1 then ["Very small area: " ++ floatStr area ++ " SF"]
       else if area > 10000000 then ["Very large area: " ++ fixedFmt 0 true area ++ " SF"]
       else []) ++
      (if strIn "rentable" (pyLower fp) then
        (if area < 10 then ["Rentable area suspiciously small"] else [])
       else if strIn "usable" (pyLower fp) then
        (if area < 10 then ["Usable area suspiciously small"] else [])
       else []), 0⟩ := by
  have hclean : pyStrip (stripChars [',']
      (String.mk (areaSub (pyStr (.float area)).data))) = floatStr area := by
    have h1 : String.mk (areaSub (pyStr (.float area)).data) = floatStr area := by
      show String.mk (areaSub (floatStr area).data) = floatStr area
      rw [areaSub_floatStr]
    rw [h1]
    have hsc : stripChars [','] (floatStr area) = floatStr area := by
      apply stripChars_eq_self
      intro c hc
      rcases mem_floatStr_class hc with hD | rfl | rfl
      · simpa using digit_ne_of hD (by decide)
      · decide
      · decide
    rw [hsc]
    exact pyStrip_floatStr area
  simp only [validate_area, hclean, parseFloat_floatStr hdec]
  have hne : ¬ (pyStr (PyVal.float area) ≠ floatStr area) := fun hx => hx rfl
  rw [if_neg hne]
  unfold mkValidationResult
  rw [clamp_zero, List.append_nil]

theorem validate_area_idem (v : PyVal) (fp : String)
    (h : (validate_area v fp).confidence_adjustment = 0) :
    (validate_area (validate_area v fp).value fp).value = (validate_area v fp).value ∧
    (validate_area (validate_area v fp).value fp).confidence_adjustment = 0 ∧
    ∀ w ∈ (validate_area (validate_area v fp).value fp).warnings,
      w ∈ (validate_area v fp).warnings := by
  rcases validate_area_cases v fp with ⟨area, hp, hr⟩ | hfail
  · have hdec := parseFloat_isDecimal hp
    rw [hr]
    rw [show (⟨.float area, _, 0⟩ : ValidationResult).value = .float area from rfl]
    rw [validate_area_float fp hdec]
    refine ⟨rfl, rfl, ?_⟩
    intro w hw
    exact List.mem_append.mpr (Or.inl hw)
  · rw [hfail] at h
    norm_num at h

theorem validate_percentage_cases (v : PyVal) (fp : String) :
    (∃ pct0, parseFloat (pyStrip (stripChars ['%'] (pyStr v))) = some pct0 ∧
      validate_percentage v fp = ⟨.float (roundQ 4 (if pct0 > 1 then pct0 / 100 else pct0)),
        (if pct0 > 1 then
          ["Percentage converted from " ++ pyStr v ++ " to " ++
            floatStr (if pct0 > 1 then pct0 / 100 else pct0)] else []) ++
        (if (if pct0 > 1 then pct0 / 100 else pct0) < 0 ∨
            (if pct0 > 1 then pct0 / 100 else pct0) > 1 then
          ["Percentage " ++ floatStr (if pct0 > 1 then pct0 / 100 else pct0) ++
            " outside valid range [0, 1]"] else []), 0⟩) ∨
    (validate_percentage v fp).confidence_adjustment = -(1/5) := by
  cases hp : parseFloat (pyStrip (stripChars ['%'] (pyStr v))) with
  | some pct0 =>
    left
    refine ⟨pct0, rfl, ?_⟩
    simp only [validate_percentage, hp]
    unfold mkValidationResult
    rw [clamp_zero]
  | none =>
    right
    simp only [validate_percentage, hp]
    unfold mkValidationResult
    norm_num

theorem validate_percentage_float (fp : String) {q : ℚ} (hdec : IsDecimal q)
    (hround : roundQ 4 q = q) (h0 : 0 ≤ q) (h1 : q ≤ 1) :
    validate_percentage (.float q) fp = ⟨.float q, [], 0⟩ := by
  have hclean : pyStrip (stripChars ['%'] (pyStr (.float q))) = floatStr q := by
    have hsc : stripChars ['%'] (pyStr (.float q)) = floatStr q := by
      show stripChars ['%'] (floatStr q) = floatStr q
      apply stripChars_eq_self
      intro c hc
      rcases mem_floatStr_class hc with hD | rfl | rfl
      · simpa using digit_ne_of hD (by decide)
      · decide
      · decide
    rw [hsc]
    exact pyStrip_floatStr q
  have hng : ¬ (q > 1) := not_lt.mpr h1
  simp only [validate_percentage, hclean, parseFloat_floatStr hdec]
  rw [if_neg hng, if_neg hng]
  rw [if_neg (by push_neg; exact ⟨h0, h1⟩ : ¬ (q < 0 ∨ q > 1))]
  rw [hround]
  unfold mkValidationResult
  rw [clamp_zero]
  rfl

theorem validate_percentage_value_idem (v : PyVal) (fp : String) {q : ℚ}
    (hval : (validate_percentage v fp).value = .float q)
    (hadj : (validate_percentage v fp).confidence_adjustment = 0)
    (h0 : 0 ≤ q) (h1 : q ≤ 1) :
    validate_percentage (.float q) fp = ⟨.float q, [], 0⟩ := by
  rcases validate_percentage_cases v fp with ⟨pct0, hp, hr⟩ | hfail
  · rw [hr] at hval
    have hq : roundQ 4 (if pct0 > 1 then pct0 / 100 else pct0) = q := by
      simpa using hval
    have hround : roundQ 4 q = q := by rw [← hq, roundQ_roundQ]
    have hdec : IsDecimal q := by rw [← hq]; exact roundQ_isDecimal _ _
    exact validate_percentage_float fp hdec hround h0 h1
  · rw [hfail] at hadj
    norm_num at hadj

/-- C2 counterexample: `'250%'` parses successfully on the first pass (zero
adjustment), yet renormalizing the canonical output changes the value — the
first pass yields `2.5`, and the second pass divides by 100 again, yielding
`0.025`. -/
theorem normalize_percentage_not_idempotent_cex :
    (validate_percentage (.str "250%") "pro_rata_share").confidence_adjustment = 0 ∧
    (validate_percentage ((validate_percentage (.str "250%") "pro_rata_share").value)
        "pro_rata_share").value ≠
      (validate_percentage (.str "250%") "pro_rata_share").value := by
  decide

/-- C2 (amended): renormalizing a canonical output is idempotent for the date,
number and area types whenever the first pass parsed (zero adjustment): the
value is unchanged, the adjustment stays zero, and no new warnings appear
(dates renormalize warning-free).  For percentages idempotence additionally
requires the canonical value to lie in `[0, 1]`: the `>1` heuristic re-divides
any out-of-range canonical value by 100 on the next pass. -/
theorem normalize_idempotent_amended (v : PyVal) (fp : String) (q : ℚ) :
    ((validate_date v fp).confidence_adjustment = 0 →
      validate_date (validate_date v fp).value fp = ⟨(validate_date v fp).value, [], 0⟩) ∧
    ((validate_number v fp).confidence_adjustment = 0 →
      (validate_number (validate_number v fp).value fp).value = (validate_number v fp).value ∧
      (validate_number (validate_number v fp).value fp).confidence_adjustment = 0 ∧
      ∀ w ∈ (validate_number (validate_number v fp).value fp).warnings,
        w ∈ (validate_number v fp).warnings) ∧
    ((validate_area v fp).confidence_adjustment = 0 →
      (validate_area (validate_area v fp).value fp).value = (validate_area v fp).value ∧
      (validate_area (validate_area v fp).value fp).confidence_adjustment = 0 ∧
      ∀ w ∈ (validate_area (validate_area v fp).value fp).warnings,
        w ∈ (validate_area v fp).warnings) ∧
    ((validate_percentage v fp).value = .float q →
      (validate_percentage v fp).confidence_adjustment = 0 →
      0 ≤ q → q ≤ 1 →
      validate_percentage (.float q) fp = ⟨.float q, [], 0⟩) :=
  ⟨fun h => validate_date_idem v fp h,
   fun h => validate_number_idem v fp h,
   fun h => validate_area_idem v fp h,
   fun hval hadj h0 h1 => validate_percentage_value_idem v fp hval hadj h0 h1⟩

/-- Witness for C2: the date `'January 15, 2024'` renormalizes to itself
warning-free, and the in-range percentage `'12.5%'` (canonical `0.125`)
renormalizes to itself. -/
theorem normalize_idempotent_amended_witness :
    ((validate_date (.str "January 15, 2024") "lease_commencement").confidence_adjustment = 0 ∧
     validate_date (validate_date (.str "January 15, 2024") "lease_commencement").value
        "lease_commencement" =
       ⟨(validate_date (.str "January 15, 2024") "lease_commencement").value, [], 0⟩) ∧
    validate_percentage (.float (1/8)) "pro_rata_share" = ⟨.float (1/8), [], 0⟩ := by
  constructor
  · exact ⟨by decide, (normalize_idempotent_amended (.str "January 15, 2024")
      "lease_commencement" 0).1 (by decide)⟩
  · exact (normalize_idempotent_amended (.str "12.5%") "pro_rata_share" (1/8)).2.2.2
      (by decide) (by decide) (by decide) (by decide)
